import Mathlib

/-!
Verification of the geometry conditioning and robust triangulation pipeline
of the splatnav repository (src/src/utils/gsMeshGenerator.ts and the mesh
conversion utilities).  Numeric values are modelled with exact rationals;
the external 2D Delaunay primitive (the delaunator package) and the external
Babylon normal computation are modelled as oracle parameters, since they are
outside the repository.  The trigonometric direction used by the spiral
perturbation pass is likewise an oracle parameter (its exact values are
transcendental and never affect the properties proved about that pass).
-/

namespace SplatNav

/-- Model of the ValidatedPoint interface: x and z are the triangulation
plane coordinates, y is the carried height, originalIndex the index in the
input buffer (the fallback corner points use -1, hence an integer). -/
structure VPoint where
  x : ℚ
  z : ℚ
  originalIndex : ℤ
  y : ℚ
deriving Repr, DecidableEq

/-- Model of the bounding box record of ValidationResult. -/
structure BoundingBox where
  minX : ℚ
  maxX : ℚ
  minZ : ℚ
  maxZ : ℚ
  width : ℚ
  height : ℚ
deriving Repr, DecidableEq

/-- POINT_TOLERANCE = 1e-6. -/
def pointTolerance : ℚ := 1 / 1000000

/-- MAX_POINTS_FOR_TRIANGULATION = 100000. -/
def maxPointsForTriangulation : ℕ := 100000

/-- NEAR_COLLINEAR_TOLERANCE = 1e-3. -/
def nearCollinearTolerance : ℚ := 1 / 1000

/-- MIN_BOUNDING_BOX_AREA = 1e-6. -/
def minBoundingBoxArea : ℚ := 1 / 1000000

/-- MIN_POINT_SPREAD_RATIO = 0.001. -/
def minPointSpreadRatioQ : ℚ := 1 / 1000

/-- hashPoint: spatial hash bucket key, floor(x/tolerance), floor(z/tolerance). -/
def hashPoint (x z tolerance : ℚ) : ℤ × ℤ :=
  (⌊x / tolerance⌋, ⌊z / tolerance⌋)

/-- Model of the CoordinateRange interface. -/
structure CoordinateRange where
  minX : ℚ
  maxX : ℚ
  minZ : ℚ
  maxZ : ℚ
  spreadX : ℚ
  spreadZ : ℚ
  centerX : ℚ
  centerZ : ℚ
deriving Repr, DecidableEq

/-- computeCoordinateRange: running min and max over the point list.  The
source initialises with plus and minus infinity; on a nonempty list the
result is the componentwise min and max, which is what the fold below
computes.  The empty list (which yields infinite values in the source and is
never fed to this function on any executed path) is mapped to zeros. -/
def computeCoordinateRange (points : List VPoint) : CoordinateRange :=
  match points with
  | [] => ⟨0, 0, 0, 0, 0, 0, 0, 0⟩
  | p :: _ =>
    let minX := points.foldl (fun a q => min a q.x) p.x
    let maxX := points.foldl (fun a q => max a q.x) p.x
    let minZ := points.foldl (fun a q => min a q.z) p.z
    let maxZ := points.foldl (fun a q => max a q.z) p.z
    ⟨minX, maxX, minZ, maxZ, maxX - minX, maxZ - minZ,
      (minX + maxX) / 2, (minZ + maxZ) / 2⟩

/-- Model of NormalizedCoordinates: the flat Float64Array of pairs plus the
diagnostic transform. -/
structure NormalizedCoordinates where
  coords : List (ℚ × ℚ)
  offsetX : ℚ
  offsetZ : ℚ
  scaleX : ℚ
  scaleZ : ℚ
deriving Repr, DecidableEq

/-- normalizeCoordinates: center at the bounding box midpoint, pick a scale
by spread magnitude, compensate extreme aspect ratio, snap values below
1e-10 to zero, and rescale once more if the normalized spread fell below
POINT_TOLERANCE.  Exact rationals are always finite, so the overflow
replacement branch of the source is unreachable here. -/
def normalizeCoordinates (points : List VPoint) (range : CoordinateRange) :
    NormalizedCoordinates :=
  let maxSpread := max range.spreadX range.spreadZ
  let minSpread := min range.spreadX range.spreadZ
  let scale0 : ℚ :=
    if maxSpread > 1000000 then 1 / 1000000
    else if maxSpread < 1 / 1000 ∧ maxSpread > 0 then 1000
    else 1
  let aspectRatio := if maxSpread > 0 then minSpread / maxSpread else 1
  let scale :=
    if aspectRatio < 1 / 1000000 ∧ maxSpread > 0 then scale0 * (1 + aspectRatio)
    else scale0
  let epsilon : ℚ := 1 / 10000000000
  let coords0 := points.map (fun p =>
    let nx := (p.x - range.centerX) * scale
    let nz := (p.z - range.centerZ) * scale
    let nx := if |nx| < epsilon then 0 else nx
    let nz := if |nz| < epsilon then 0 else nz
    (nx, nz))
  let normalizedRange := computeCoordinateRange
    ((coords0.enum).map (fun c => VPoint.mk c.2.1 c.2.2 c.1 0))
  let normalizedSpread := max normalizedRange.spreadX normalizedRange.spreadZ
  if normalizedSpread < pointTolerance ∧ normalizedSpread > 0 then
    let adjustmentScale := pointTolerance / normalizedSpread
    ⟨coords0.map (fun c => (c.1 * adjustmentScale, c.2 * adjustmentScale)),
      range.centerX, range.centerZ, scale * adjustmentScale, scale * adjustmentScale⟩
  else
    ⟨coords0, range.centerX, range.centerZ, scale, scale⟩

/-- Model of the ValidationResult interface. -/
structure ValidationResult where
  validatedPoints : List VPoint
  originalIndices : List ℤ
  boundingBox : BoundingBox
deriving Repr, DecidableEq

/-- The bounding box of a list of kept points (running min and max, widths
derived), matching the incremental update in validateAndDeduplicatePoints. -/
def bboxOfPoints (ps : List VPoint) : BoundingBox :=
  match ps with
  | [] => ⟨0, 0, 0, 0, 0, 0⟩
  | p :: _ =>
    let minX := ps.foldl (fun a q => min a q.x) p.x
    let maxX := ps.foldl (fun a q => max a q.x) p.x
    let minZ := ps.foldl (fun a q => min a q.z) p.z
    let maxZ := ps.foldl (fun a q => max a q.z) p.z
    ⟨minX, maxX, minZ, maxZ, maxX - minX, maxZ - minZ⟩

/-- The dedup loop of validateAndDeduplicatePoints: walk the input buffer in
order, keep a point only when its spatial hash bucket is unoccupied, record
its key in the occupied set.  Kept points are produced in input order (the
JS Map preserves insertion order), carrying the original index. -/
def dedupGo : List (ℚ × ℚ × ℚ) → ℤ → List (ℤ × ℤ) → List VPoint × List ℤ
  | [], _, _ => ([], [])
  | (x, y, z) :: rest, i, seen =>
    let pointKey := hashPoint x z pointTolerance
    if pointKey ∈ seen then dedupGo rest (i + 1) seen
    else
      let r := dedupGo rest (i + 1) (pointKey :: seen)
      (⟨x, z, i, y⟩ :: r.1, i :: r.2)

/-- validateAndDeduplicatePoints: the input buffer is modelled as a list of
(x, y, z) triples (the source reads positions[3i], positions[3i+2] and the
y array entry).  First point per bucket is kept verbatim; the bounding box
accumulates only over kept points. -/
def validateAndDeduplicatePoints (input : List (ℚ × ℚ × ℚ)) : ValidationResult :=
  let r := dedupGo input 0 []
  ⟨r.1, r.2, bboxOfPoints r.1⟩

/-- The consecutive index triples (points[i], points[i+1], points[i+2]) that
the near collinearity sampling inspects. -/
def consecutiveTriples (points : List VPoint) : List (VPoint × VPoint × VPoint) :=
  match points with
  | p1 :: (p2 :: rest) => (List.zip (p1 :: p2 :: rest) (List.zip (p2 :: rest) rest)).map
      (fun t => (t.1, t.2.1, t.2.2))
  | _ => []

/-- checkCollinearity: exact shared x or shared z check within
POINT_TOLERANCE, then the sampled consecutive triple test comparing the
half cross product magnitude against the squared scaled tolerance, with the
count threshold at ninety percent of the point count. -/
def checkCollinearity (points : List VPoint) : Bool :=
  match points with
  | [] => false
  | firstPoint :: _ =>
    if points.length < 3 then false
    else
      let allSameX := points.all (fun p => |p.x - firstPoint.x| ≤ pointTolerance)
      let allSameZ := points.all (fun p => |p.z - firstPoint.z| ≤ pointTolerance)
      if allSameX || allSameZ then true
      else
        let coordRange := computeCoordinateRange points
        let maxSpread := max coordRange.spreadX coordRange.spreadZ
        let tolerance := maxSpread * nearCollinearTolerance
        if tolerance < pointTolerance then false
        else
          let nearCollinearCount := (consecutiveTriples points).countP (fun t =>
            let dx1 := t.2.1.x - t.1.x
            let dz1 := t.2.1.z - t.1.z
            let dx2 := t.2.2.x - t.2.1.x
            let dz2 := t.2.2.z - t.2.1.z
            let crossProduct := dx1 * dz2 - dz1 * dx2
            let area := |crossProduct| / 2
            decide (area < tolerance * tolerance))
          decide ((nearCollinearCount : ℚ) ≥ (points.length : ℚ) * (9 / 10))

/-- Reasons of geometry validation failure (the detail strings carry no
semantic content and are dropped). -/
inductive GeomReason where
  | insufficientPoints
  | areaTooSmall
  | spreadTooNarrow
  | lowDiversity
deriving Repr, DecidableEq

/-- Model of the GeometryValidationResult union. -/
inductive GeometryValidationResult where
  | valid
  | invalid (reason : GeomReason)
deriving Repr, DecidableEq

/-- The number of distinct spatial hash buckets occupied by the points. -/
def countUniqueKeys (points : List VPoint) : ℕ :=
  (points.foldl (fun (seen : List (ℤ × ℤ)) p =>
    let key := hashPoint p.x p.z pointTolerance
    if key ∈ seen then seen else key :: seen) []).length

/-- validatePointSetGeometry: minimum count, bounding box area, spread
ratio, and spatial diversity checks, in source order.  Rational division by
zero yields zero, but the spread ratio test is guarded by maxSpread > 0
exactly as in the source, so the convention never decides the outcome. -/
def validatePointSetGeometry (points : List VPoint) (boundingBox : BoundingBox) :
    GeometryValidationResult :=
  if points.length < 3 then .invalid .insufficientPoints
  else
    let area := boundingBox.width * boundingBox.height
    if area < minBoundingBoxArea then .invalid .areaTooSmall
    else
      let maxSpread := max boundingBox.width boundingBox.height
      let minSpread := min boundingBox.width boundingBox.height
      let spreadRatio := minSpread / maxSpread
      if spreadRatio < minPointSpreadRatioQ ∧ maxSpread > 0 then .invalid .spreadTooNarrow
      else
        let uniqueCount := countUniqueKeys points
        let diversityRatio := (uniqueCount : ℚ) / (points.length : ℚ)
        if diversityRatio < 1 / 2 ∧ points.length > 10 then .invalid .lowDiversity
        else .valid

/-- applyCollinearityOffset: deterministic alternating offset on x, z or
both, indexed by point position parity (tertiary pattern for z). -/
def applyCollinearityOffset (points : List VPoint) (boundingBox : BoundingBox) :
    List VPoint :=
  let offsetX := boundingBox.width * (1 / 10000)
  let offsetZ := boundingBox.height * (1 / 10000)
  let isHorizontalLine := |boundingBox.width| < pointTolerance
  let isVerticalLine := |boundingBox.height| < pointTolerance
  points.enum.map (fun pi =>
    let point := pi.2
    let index := pi.1
    if isHorizontalLine then
      { point with x := point.x + offsetX * (if index % 2 = 0 then 1 else -1) }
    else if isVerticalLine then
      { point with z := point.z + offsetZ * (if index % 2 = 0 then 1 else -1) }
    else
      { point with
        x := point.x + offsetX * (if index % 2 = 0 then 1 else -1),
        z := point.z + offsetZ * (if index % 3 = 0 then 1 else -1) })

/-- Model of the DownsampleStrategy union. -/
inductive DownsampleStrategy where
  | noneStrat (pointCount : ℕ)
  | grid (pointCount : ℕ) (gridSize : ℕ) (originalCount : ℕ)
  | progressive (pointCount : ℕ) (ratio : ℚ) (originalCount : ℕ) (attempt : ℕ)
deriving Repr, DecidableEq

/-- Model of the DownsampledPoints interface. -/
structure DownsampledPoints where
  points : List VPoint
  originalIndices : List ℤ
  strategy : DownsampleStrategy
deriving Repr, DecidableEq

/-- Math.ceil(Math.sqrt n) for a natural number n. -/
def ceilSqrt (n : ℕ) : ℕ :=
  if Nat.sqrt n * Nat.sqrt n = n then Nat.sqrt n else Nat.sqrt n + 1

/-- Append a point to its grid cell, creating the cell at the end on first
occupation (JS Map insertion order). -/
def insertIntoCell (m : List ((ℤ × ℤ) × List VPoint)) (key : ℤ × ℤ) (p : VPoint) :
    List ((ℤ × ℤ) × List VPoint) :=
  match m with
  | [] => [(key, [p])]
  | (k, ps) :: rest =>
    if k = key then (k, ps ++ [p]) :: rest else (k, ps) :: insertIntoCell rest key p

/-- The grid map of downsamplePoints: each point is filed under the cell
floor((x - minX)/cellWidth), floor((z - minZ)/cellHeight). -/
def buildGridMap (points : List VPoint) (boundingBox : BoundingBox)
    (cellWidth cellHeight : ℚ) : List ((ℤ × ℤ) × List VPoint) :=
  points.foldl (fun m point =>
    insertIntoCell m (⌊(point.x - boundingBox.minX) / cellWidth⌋,
      ⌊(point.z - boundingBox.minZ) / cellHeight⌋) point) []

/-- One cell of the single representative pass: guard on the hash key of
the first cell point, keep the middle point of the cell (by position in
insertion order). -/
def mainStep (acc : List VPoint × List ℤ × List (ℤ × ℤ))
    (cell : (ℤ × ℤ) × List VPoint) : List VPoint × List ℤ × List (ℤ × ℤ) :=
  match cell.2 with
  | [] => acc
  | c0 :: _ =>
    let pointKey := hashPoint c0.x c0.z pointTolerance
    if pointKey ∈ acc.2.2 then acc
    else
      let selectedPoint := cell.2.getD (cell.2.length / 2) c0
      (acc.1 ++ [selectedPoint], acc.2.1 ++ [selectedPoint.originalIndex],
        pointKey :: acc.2.2)

/-- The single representative pass of downsamplePoints. -/
def mainPassGo (cells : List ((ℤ × ℤ) × List VPoint)) :
    List VPoint × List ℤ × List (ℤ × ℤ) :=
  cells.foldl mainStep ([], [], [])

/-- One sampled index of the enhanced pass within one cell: keep the point
at that position unless its bucket is already used. -/
def enhInner (cellPts : List VPoint) (acc2 : List VPoint × List ℤ × List (ℤ × ℤ))
    (j : ℕ) : List VPoint × List ℤ × List (ℤ × ℤ) :=
  match cellPts.get? j with
  | none => acc2
  | some point =>
    let pointKey := hashPoint point.x point.z pointTolerance
    if pointKey ∈ acc2.2.2 then acc2
    else (acc2.1 ++ [point], acc2.2.1 ++ [point.originalIndex],
      pointKey :: acc2.2.2)

/-- One cell of the enhanced multi point per cell pass: sample every
step-th point of the cell. -/
def enhStep (minPointsPerCell : ℕ) (acc : List VPoint × List ℤ × List (ℤ × ℤ))
    (cell : (ℤ × ℤ) × List VPoint) : List VPoint × List ℤ × List (ℤ × ℤ) :=
  match cell.2 with
  | [] => acc
  | _ :: _ =>
    let sampleCount := min minPointsPerCell cell.2.length
    let step := max 1 (cell.2.length / sampleCount)
    ((List.range cell.2.length).filter (fun j => j % step = 0)).foldl
      (enhInner cell.2) acc

/-- The enhanced multi point per cell pass, still deduplicating against the
used key set of the main pass. -/
def enhancedPassGo (cells : List ((ℤ × ℤ) × List VPoint))
    (minPointsPerCell : ℕ) (used : List (ℤ × ℤ)) :
    List VPoint × List ℤ × List (ℤ × ℤ) :=
  cells.foldl (enhStep minPointsPerCell) ([], [], used)

/-- downsamplePoints: grid downsampling with an adjusted target compensating
for the aspect ratio, a median position representative per cell, and an
enhanced multi point per cell retry when the result fails geometry
validation. -/
def downsamplePoints (points : List VPoint) (boundingBox : BoundingBox)
    (targetCount : ℕ) : DownsampledPoints :=
  if points.length ≤ targetCount then
    ⟨points, points.map (·.originalIndex), .noneStrat points.length⟩
  else
    let maxSpread := max boundingBox.width boundingBox.height
    let minSpread := min boundingBox.width boundingBox.height
    let aspectRatio := if maxSpread > 0 then minSpread / maxSpread else 1
    let adjustedTargetCount :=
      max 3 (Int.toNat ⌊(targetCount : ℚ) * (1 + aspectRatio * (1 / 2))⌋)
    let gridSize := ceilSqrt adjustedTargetCount
    let cellWidth := if boundingBox.width > 0 then boundingBox.width / gridSize else 1
    let cellHeight := if boundingBox.height > 0 then boundingBox.height / gridSize else 1
    let gridMap := buildGridMap points boundingBox cellWidth cellHeight
    let main := mainPassGo gridMap
    let result : DownsampledPoints :=
      ⟨main.1, main.2.1, .grid main.1.length gridSize points.length⟩
    match validatePointSetGeometry result.points boundingBox with
    | .valid => result
    | .invalid _ =>
      if result.points.length ≥ 3 then
        let minPointsPerCell := max 1 (points.length / (gridSize * gridSize))
        if minPointsPerCell > 1 then
          let enh := enhancedPassGo gridMap minPointsPerCell main.2.2
          if enh.1.length ≥ 3 then
            ⟨enh.1, enh.2.1, .grid enh.1.length gridSize points.length⟩
          else result
        else result
      else result

/-- The free position search loop of ensureNonDegeneratePoints: up to ten
attempts, each retrying at a direction taken from the dir oracle (standing
for the cosine and sine of the golden angle formula) at a growing radius.
Returns the final coordinates, the updated occupied set and whether a free
bucket was found. -/
def perturbGo (dir : ℕ → ℕ → ℚ × ℚ) (perturbationScale : ℚ) (p : VPoint) (i : ℕ)
    (used : List (ℤ × ℤ)) : ℕ → ℕ → ℚ → ℚ → ℚ × ℚ × List (ℤ × ℤ) × Bool
  | 0, _, x, z => (x, z, used, false)
  | fuel + 1, attempts, x, z =>
    let key := hashPoint x z pointTolerance
    if key ∈ used then
      let d := dir i attempts
      let radius := perturbationScale * (1 + (attempts : ℚ) * (1 / 10))
      perturbGo dir perturbationScale p i used fuel (attempts + 1)
        (p.x + d.1 * radius) (p.z + d.2 * radius)
    else (x, z, key :: used, true)

/-- One point of the perturbation pass: run the search loop, and on
exhaustion fall back to the attempt free golden angle offset at radius
max(perturbationScale, minPerturbation). -/
def perturbPoint (dir : ℕ → ℕ → ℚ × ℚ) (perturbationScale minPerturbation : ℚ)
    (used : List (ℤ × ℤ)) (i : ℕ) (p : VPoint) : VPoint × List (ℤ × ℤ) :=
  let r := perturbGo dir perturbationScale p i used 10 0 p.x p.z
  if r.2.2.2 then ({ p with x := r.1, z := r.2.1 }, r.2.2.1)
  else
    let d := dir i 0
    let radius := max perturbationScale minPerturbation
    ({ p with x := p.x + d.1 * radius, z := p.z + d.2 * radius }, r.2.2.1)

/-- The perturbed point list built by ensureNonDegeneratePoints before its
final validation. -/
def perturbCandidate (dir : ℕ → ℕ → ℚ × ℚ) (points : List VPoint)
    (boundingBox : BoundingBox) : List VPoint :=
  let maxSpread := max boundingBox.width boundingBox.height
  let perturbationScale := maxSpread * (1 / 10000)
  let minPerturbation := pointTolerance * 10
  (points.enum.foldl (fun (acc : List VPoint × List (ℤ × ℤ)) ip =>
    let r := perturbPoint dir perturbationScale minPerturbation acc.2 ip.1 ip.2
    (acc.1 ++ [r.1], r.2)) ([], [])).1

/-- ensureNonDegeneratePoints: return the input unchanged when it is small,
or already healthy; otherwise perturb, recompute the bounding box, and keep
the perturbed set only if it now validates, else return the input. -/
def ensureNonDegeneratePoints (dir : ℕ → ℕ → ℚ × ℚ) (points : List VPoint)
    (boundingBox : BoundingBox) : List VPoint :=
  if points.length < 3 then points
  else if checkCollinearity points = false ∧
      validatePointSetGeometry points boundingBox = .valid then points
  else
    let perturbedPoints := perturbCandidate dir points boundingBox
    match validatePointSetGeometry perturbedPoints (bboxOfPoints perturbedPoints) with
    | .valid => perturbedPoints
    | .invalid _ => points

/-- downsamplePointsProgressive: resample the given point set at the ratio
of the current attempt, retagging a grid strategy as progressive. -/
def downsamplePointsProgressive (points : List VPoint) (boundingBox : BoundingBox)
    (ratios : List ℚ) (attempt : ℕ) : Option DownsampledPoints :=
  match ratios.get? attempt with
  | none => none
  | some ratio =>
    let targetCount := max 3 (Int.toNat ⌊(points.length : ℚ) * ratio⌋)
    let downsampled := downsamplePoints points boundingBox targetCount
    match downsampled.strategy with
    | .grid pointCount _ originalCount =>
      some { downsampled with
        strategy := .progressive pointCount ratio originalCount attempt }
    | _ => some downsampled

/-- The object returned by the external Delaunator primitive: the triangle
index array and the optional half edge array.  The primitive itself is
outside the repository, so a run of the pipeline is parameterised by an
oracle producing such an object (or none, when the constructor throws for
every attempted coordinate format). -/
structure DelaunatorOutput where
  triangles : List ℕ
  halfedges : Option (List ℕ)
deriving Repr, DecidableEq

/-- Tags for the reason strings of empty triangulation results. -/
inductive EmptyReason where
  | zeroLength
deriving Repr, DecidableEq

/-- Tags for the message strings of error triangulation results. -/
inductive ErrMsg where
  | badLength
  | indexOutOfRange
  | halfedgeMismatch
  | delaunayThrew
  | fallbackInsufficient
  | fallbackThrew
  | fallbackNoValid
deriving Repr, DecidableEq

/-- Model of the TriangulationResult union. -/
inductive TriangulationResult where
  | success (triangles : List ℕ) (pointCount : ℕ)
  | empty (pointCount : ℕ) (reason : EmptyReason)
  | error (message : ErrMsg) (pointCount : ℕ)
deriving Repr, DecidableEq

/-- validateDelaunatorResult: empty, length multiple of three, index range
and half edge length checks, in source order.  The duck typing branches of
the source (missing or non Uint32Array triangles property) cannot arise in
the typed model and are omitted. -/
def validateDelaunatorResult (result : DelaunatorOutput) (pointCount : ℕ) :
    TriangulationResult :=
  let triangles := result.triangles
  if triangles.length = 0 then .empty pointCount .zeroLength
  else if triangles.length % 3 ≠ 0 then .error .badLength pointCount
  else if triangles.any (fun index => pointCount ≤ index) then
    .error .indexOutOfRange pointCount
  else
    match result.halfedges with
    | some halfedges =>
      if halfedges.length ≠ triangles.length then .error .halfedgeMismatch pointCount
      else .success triangles pointCount
    | none => .success triangles pointCount

/-- The corner filtering loop of createFallbackTriangulation: keep a triple
only when all three of its indices are below the count of original (non
corner) points. -/
def filterTriples : List ℕ → ℕ → List ℕ
  | i0 :: i1 :: i2 :: rest, pointCount =>
    if i0 < pointCount ∧ i1 < pointCount ∧ i2 < pointCount then
      i0 :: i1 :: i2 :: filterTriples rest pointCount
    else filterTriples rest pointCount
  | _, _ => []

/-- The Delaunay oracle type: receives the normalized coordinate buffer and
either returns a Delaunator object or throws (none). -/
abbrev DelaunayOracle : Type := List (ℚ × ℚ) → Option DelaunatorOutput

/-- The four bounding box corner points appended by the fallback. -/
def fallbackCorners (boundingBox : BoundingBox) : List VPoint :=
  [⟨boundingBox.minX, boundingBox.minZ, -1, 0⟩,
   ⟨boundingBox.maxX, boundingBox.minZ, -1, 0⟩,
   ⟨boundingBox.maxX, boundingBox.maxZ, -1, 0⟩,
   ⟨boundingBox.minX, boundingBox.maxZ, -1, 0⟩]

/-- createFallbackTriangulation: append the bounding box corners,
triangulate the combined set, drop every triangle touching a corner, and
accept the filtered list only when it still holds at least one triangle. -/
def createFallbackTriangulation (oracle : DelaunayOracle) (points : List VPoint)
    (boundingBox : BoundingBox) : TriangulationResult :=
  if points.length < 3 then .error .fallbackInsufficient points.length
  else
    let combinedPoints := points ++ fallbackCorners boundingBox
    let coordRange := computeCoordinateRange combinedPoints
    let normalized := normalizeCoordinates combinedPoints coordRange
    match oracle normalized.coords with
    | none => .error .fallbackThrew combinedPoints.length
    | some delaunayResult =>
      match validateDelaunatorResult delaunayResult combinedPoints.length with
      | .success triangles _ =>
        let filteredTriangles := filterTriples triangles points.length
        if filteredTriangles.length ≥ 3 then
          .success filteredTriangles points.length
        else .error .fallbackNoValid points.length
      | _ => .error .fallbackNoValid points.length

/-- The progressive retry ratios of generateNavigableMesh. -/
def progressiveRatios : List ℚ := [1/2, 1/4, 1/10, 1/20, 1/100]

/-- Ghost events recording what the retry loop did: each triangulation
attempt with the point set it used, and each progressive resampling call
with the point set it resampled from and the attempt index. -/
inductive PipelineEvent where
  | triangulate (pts : List VPoint)
  | resample (src : List VPoint) (attemptIdx : ℕ)
deriving Repr, DecidableEq

/-- The mutable state of the retry loop of generateNavigableMesh, plus the
ghost trace. -/
structure LoopState where
  current : List VPoint
  strategy : DownsampleStrategy
  attempted : List DownsampleStrategy
  attemptCount : ℕ
  trace : List PipelineEvent
  result : Option TriangulationResult
deriving Repr, DecidableEq

/-- The shared failure bookkeeping in the loop: push the current strategy on
the first attempt, bump the attempt counter, and when attempts remain,
resample progressively from the original validated point set.  Returns the
new state and whether the loop continues. -/
def advanceAttempt (orig : List VPoint) (boundingBox : BoundingBox)
    (st : LoopState) : LoopState × Bool :=
  let st := if st.attemptCount = 0 then
      { st with attempted := st.attempted ++ [st.strategy] } else st
  let st := { st with attemptCount := st.attemptCount + 1 }
  if st.attemptCount ≤ progressiveRatios.length then
    let st := { st with
      trace := st.trace ++ [PipelineEvent.resample orig (st.attemptCount - 1)] }
    match downsamplePointsProgressive orig boundingBox progressiveRatios
        (st.attemptCount - 1) with
    | some progressiveResult =>
      ({ st with current := progressiveResult.points,
                 strategy := progressiveResult.strategy }, true)
    | none => (st, false)
  else (st, false)

/-- One triangulation attempt of the loop body (after the coordinate and
geometry steps): normalize, call the primitive, validate.  Success stops the
loop; empty or error results advance the attempt counter. -/
def attemptOnce (oracle : DelaunayOracle) (orig : List VPoint)
    (boundingBox : BoundingBox) (st : LoopState) : LoopState × Bool :=
  let coordRange := computeCoordinateRange st.current
  let normalized := normalizeCoordinates st.current coordRange
  let st := { st with trace := st.trace ++ [PipelineEvent.triangulate st.current] }
  match oracle normalized.coords with
  | none =>
    advanceAttempt orig boundingBox
      { st with result := some (.error .delaunayThrew st.current.length) }
  | some delaunayResult =>
    match validateDelaunatorResult delaunayResult st.current.length with
    | .success triangles pointCount =>
      ({ st with result := some (.success triangles pointCount) }, false)
    | r => advanceAttempt orig boundingBox { st with result := some r }

/-- The retry loop of generateNavigableMesh.  Exact coordinates are always
finite, so the coordinate validation step keeps the point set unchanged and
its invalid branch is unreachable; the geometry step perturbs an unhealthy
set and, when still unhealthy on the very first attempt, advances to the
first progressive resample.  Fuel only bounds the recursion; seven units
are enough since every iteration bumps the attempt counter and the loop
stops beyond five. -/
def triLoop (oracle : DelaunayOracle) (dir : ℕ → ℕ → ℚ × ℚ)
    (orig : List VPoint) (boundingBox : BoundingBox) :
    ℕ → LoopState → LoopState
  | 0, st => st
  | fuel + 1, st =>
    if st.attemptCount > progressiveRatios.length then st
    else
      match validatePointSetGeometry st.current boundingBox with
      | .invalid _ =>
        let cur1 := ensureNonDegeneratePoints dir st.current boundingBox
        let st1 := { st with current := cur1 }
        match validatePointSetGeometry cur1 boundingBox, st.attemptCount with
        | .invalid _, 0 =>
          let st2 := { st1 with attempted := st1.attempted ++ [st1.strategy],
                                attemptCount := 1 }
          let st2 := { st2 with trace := st2.trace ++ [PipelineEvent.resample orig 0] }
          (match downsamplePointsProgressive orig boundingBox progressiveRatios 0 with
           | some progressiveResult =>
             let st3 := { st2 with current := progressiveResult.points,
                                   strategy := progressiveResult.strategy,
                                   attempted := st2.attempted ++ [progressiveResult.strategy] }
             triLoop oracle dir orig boundingBox fuel st3
           | none =>
             let r := attemptOnce oracle orig boundingBox st2
             if r.2 then triLoop oracle dir orig boundingBox fuel r.1 else r.1)
        | _, _ =>
          let r := attemptOnce oracle orig boundingBox st1
          if r.2 then triLoop oracle dir orig boundingBox fuel r.1 else r.1
      | .valid =>
        let r := attemptOnce oracle orig boundingBox st
        if r.2 then triLoop oracle dir orig boundingBox fuel r.1 else r.1

/-- The error kinds surfaced by generateNavigableMesh (thrown Error values
in the source, classified by the taxonomy of the design). -/
inductive ErrKind where
  | insufficientPoints
  | collinearUncorrected
  | degenerateGeometry
  | exhausted
deriving Repr, DecidableEq

/-- The mesh buffers applied to the Babylon mesh: flat positions, triangle
indices, and the normal buffer (allocated at the position buffer length and
filled by the external Babylon normal computation). -/
structure NavMeshOut where
  positions : List ℚ
  indices : List ℕ
  normals : List ℚ
deriving Repr, DecidableEq

/-- Typed array write semantics for the externally filled normal buffer:
the allocation fixes the length, out of range writes are dropped and
unwritten entries stay zero. -/
def fitLength (l : List ℚ) (n : ℕ) : List ℚ :=
  l.take n ++ List.replicate (n - l.length) 0

/-- The final mesh assembly of generateNavigableMesh: interleave x, y, z of
the final point set, copy the triangle indices, and let the external normal
oracle fill the normal buffer. -/
def assembleMesh (bn : List ℚ → List ℕ → List ℚ) (points : List VPoint)
    (triangles : List ℕ) : NavMeshOut :=
  let validatedPositions := (points.map (fun p => [p.x, p.y, p.z])).flatten
  let indices := triangles
  let normals := fitLength (bn validatedPositions indices) validatedPositions.length
  ⟨validatedPositions, indices, normals⟩

/-- The deduplicated and, when needed, collinearity corrected point set that
the retry loop treats as the original validated set. -/
def conditionedPoints (input : List (ℚ × ℚ × ℚ)) : List VPoint :=
  let validationResult := validateAndDeduplicatePoints input
  if checkCollinearity validationResult.validatedPoints then
    applyCollinearityOffset validationResult.validatedPoints validationResult.boundingBox
  else validationResult.validatedPoints

/-- The stages of generateNavigableMesh after the collinearity gate: initial
geometry validation with one perturbation chance, the hard cap grid
downsample, the retry loop, the fallback, and mesh assembly.  Returns the
outcome together with the final loop state (whose ghost trace records the
triangulation and resample events). -/
def runConditioned (oracle : DelaunayOracle) (dir : ℕ → ℕ → ℚ × ℚ)
    (bn : List ℚ → List ℕ → List ℚ) (vpoints : List VPoint)
    (boundingBox : BoundingBox) : Except ErrKind NavMeshOut × LoopState :=
  let st0 : LoopState :=
    ⟨vpoints, .noneStrat vpoints.length, [], 0, [], none⟩
  match validatePointSetGeometry vpoints boundingBox with
  | .invalid _ =>
    let cur1 := ensureNonDegeneratePoints dir vpoints boundingBox
    match validatePointSetGeometry cur1 boundingBox with
    | .invalid _ => (.error .degenerateGeometry, { st0 with current := cur1 })
    | .valid => runCapped oracle dir bn vpoints boundingBox { st0 with current := cur1 }
  | .valid => runCapped oracle dir bn vpoints boundingBox st0
where
  /-- The hard cap downsample followed by the loop, fallback and assembly. -/
  runCapped (oracle : DelaunayOracle) (dir : ℕ → ℕ → ℚ × ℚ)
      (bn : List ℚ → List ℕ → List ℚ) (vpoints : List VPoint)
      (boundingBox : BoundingBox) (st : LoopState) :
      Except ErrKind NavMeshOut × LoopState :=
    let st := if st.current.length > maxPointsForTriangulation then
        let downsampled := downsamplePoints st.current boundingBox maxPointsForTriangulation
        let cur2 := match validatePointSetGeometry downsampled.points boundingBox with
          | .invalid _ => ensureNonDegeneratePoints dir downsampled.points boundingBox
          | .valid => downsampled.points
        { st with current := cur2, strategy := downsampled.strategy,
                  attempted := st.attempted ++ [downsampled.strategy] }
      else st
    let stF := triLoop oracle dir vpoints boundingBox 7 st
    match stF.result with
    | some (.success triangles _) => (.ok (assembleMesh bn stF.current triangles), stF)
    | _ =>
      match createFallbackTriangulation oracle stF.current boundingBox with
      | .success triangles _ => (.ok (assembleMesh bn stF.current triangles), stF)
      | _ => (.error .exhausted, stF)

/-- The full pipeline of generateNavigableMesh, returning the result and the
final loop state. -/
def runPipeline (oracle : DelaunayOracle) (dir : ℕ → ℕ → ℚ × ℚ)
    (bn : List ℚ → List ℕ → List ℚ) (input : List (ℚ × ℚ × ℚ)) :
    Except ErrKind NavMeshOut × LoopState :=
  let emptySt : LoopState := ⟨[], .noneStrat 0, [], 0, [], none⟩
  if input.length < 3 then (.error .insufficientPoints, emptySt)
  else
    let validationResult := validateAndDeduplicatePoints input
    if validationResult.validatedPoints.length < 3 then
      (.error .insufficientPoints, emptySt)
    else
      let vpoints := conditionedPoints input
      if checkCollinearity vpoints then (.error .collinearUncorrected, emptySt)
      else runConditioned oracle dir bn vpoints validationResult.boundingBox

/-- generateNavigableMesh: the pipeline outcome (the thrown Error values of
the source become error kinds). -/
def generateNavigableMesh (oracle : DelaunayOracle) (dir : ℕ → ℕ → ℚ × ℚ)
    (bn : List ℚ → List ℕ → List ℚ) (input : List (ℚ × ℚ × ℚ)) :
    Except ErrKind NavMeshOut :=
  (runPipeline oracle dir bn input).1

/-- The ghost trace of a pipeline run. -/
def pipelineTrace (oracle : DelaunayOracle) (dir : ℕ → ℕ → ℚ × ℚ)
    (bn : List ℚ → List ℕ → List ℚ) (input : List (ℚ × ℚ × ℚ)) :
    List PipelineEvent :=
  (runPipeline oracle dir bn input).2.trace

/-- The Mesh record of the meshConverter module. -/
structure MeshOut where
  vertices : List ℚ
  indices : List ℕ
  normals : List ℚ
  vertexCount : ℕ
  indexCount : ℕ
deriving Repr, DecidableEq

/-- convertPointCloudToMesh (the meshConverter version): run
generateNavigableMesh and repackage the buffers read back from the Babylon
mesh, with vertexCount the vertex buffer length over three and indexCount
the index buffer length. -/
def convertPointCloudToMesh (oracle : DelaunayOracle) (dir : ℕ → ℕ → ℚ × ℚ)
    (bn : List ℚ → List ℕ → List ℚ) (pointCloud : List (ℚ × ℚ × ℚ)) :
    Except ErrKind MeshOut :=
  if pointCloud.length < 3 then .error .insufficientPoints
  else
    match generateNavigableMesh oracle dir bn pointCloud with
    | .error e => .error e
    | .ok m =>
      .ok ⟨m.positions, m.indices, m.normals, m.positions.length / 3, m.indices.length⟩

namespace ExhaustiveMesh

/-!
Model of the exhaustive triangulation path of the mesh converter module
(the second file of part_001): delaunayTriangulation enumerates index
triples, isValidTriangle gates them by cross product area, and
computeNormals derives per vertex normals.  These functions use square
roots and divisions, so they are modelled over the real numbers.
-/

/-- MAX_TRIANGLES = 10000000. -/
def maxTrianglesCap : ℕ := 10000000

/-- A 3D vector. -/
structure V3 where
  x : ℝ
  y : ℝ
  z : ℝ

/-- Reading a flat typed array (out of range reads never happen on the
executed paths; they default to zero). -/
def vget (l : List ℝ) (i : ℕ) : ℝ := l.getD i 0

/-- The raw cross product of the two edge vectors of the triangle with
vertex indices a, b, c into the flat vertex buffer (edges b - a and
c - a), as computed both by isValidTriangle and by computeNormals. -/
def faceNormalRaw (vertices : List ℝ) (a b c : ℕ) : V3 :=
  let v0x := vget vertices (a * 3)
  let v0y := vget vertices (a * 3 + 1)
  let v0z := vget vertices (a * 3 + 2)
  let v1x := vget vertices (b * 3) - v0x
  let v1y := vget vertices (b * 3 + 1) - v0y
  let v1z := vget vertices (b * 3 + 2) - v0z
  let v2x := vget vertices (c * 3) - v0x
  let v2y := vget vertices (c * 3 + 1) - v0y
  let v2z := vget vertices (c * 3 + 2) - v0z
  ⟨v1y * v2z - v1z * v2y, v1z * v2x - v1x * v2z, v1x * v2y - v1y * v2x⟩

/-- Euclidean length of a vector, via the square root of the sum of
squares, as in the source. -/
noncomputable def normV3 (v : V3) : ℝ := Real.sqrt (v.x * v.x + v.y * v.y + v.z * v.z)

/-- isValidTriangle: the cross product magnitude (twice the triangle area)
must exceed 0.0001. -/
noncomputable def isValidTriangle (vertices : List ℝ) (a b c : ℕ) : Prop :=
  normV3 (faceNormalRaw vertices a b c) > 1 / 10000

noncomputable instance (vertices : List ℝ) (a b c : ℕ) :
    Decidable (isValidTriangle vertices a b c) := by
  unfold isValidTriangle; infer_instance

/-- The index triples i < j < k below count, in the lexicographic order of
the three nested loops of delaunayTriangulation. -/
def lexTriples (count : ℕ) : List (ℕ × ℕ × ℕ) :=
  (List.range count).flatMap (fun i =>
    (List.range count).flatMap (fun j =>
      (List.range count).filterMap (fun k =>
        if i < j ∧ j < k then some (i, j, k) else none)))

/-- The accepted triple list of the three nested loops with the
MAX_TRIANGLES cap: a triple is appended when the cap is not yet reached and
it forms a valid triangle. -/
noncomputable def collectValid (vertices : List ℝ) (cap : ℕ)
    (ts : List (ℕ × ℕ × ℕ)) : List (ℕ × ℕ × ℕ) :=
  ts.foldl (fun acc t =>
    if acc.length < cap ∧ isValidTriangle vertices t.1 t.2.1 t.2.2 then acc ++ [t]
    else acc) []

/-- Pointwise update of a per vertex vector accumulator. -/
def addV3At (f : ℕ → V3) (v : ℕ) (d : V3) : ℕ → V3 :=
  fun w => if w = v then ⟨(f v).x + d.x, (f v).y + d.y, (f v).z + d.z⟩ else f w

/-- Pointwise bump of a per vertex counter. -/
def bumpAt (f : ℕ → ℕ) (v : ℕ) : ℕ → ℕ :=
  fun w => if w = v then f v + 1 else f w

/-- One triangle of the accumulation loop of computeNormals: normalize the
face normal and add it at the three corner vertices, bumping their
contribution counts, unless the face normal length is at most 0.0001, in
which case the triangle contributes nothing. -/
noncomputable def accumStep (vertices : List ℝ) (indices : List ℕ)
    (acc : (ℕ → V3) × (ℕ → ℕ)) (t : ℕ) : (ℕ → V3) × (ℕ → ℕ) :=
  let a := indices.getD (t * 3) 0
  let b := indices.getD (t * 3 + 1) 0
  let c := indices.getD (t * 3 + 2) 0
  let n := faceNormalRaw vertices a b c
  let len := normV3 n
  if len > 1 / 10000 then
    let nn : V3 := ⟨n.x * (1 / len), n.y * (1 / len), n.z * (1 / len)⟩
    let f1 := addV3At acc.1 a nn
    let f2 := addV3At f1 b nn
    let f3 := addV3At f2 c nn
    let c1 := bumpAt acc.2 a
    let c2 := bumpAt c1 b
    let c3 := bumpAt c2 c
    (f3, c3)
  else acc

/-- The accumulated per vertex normal sums and contribution counts over the
first triangleCount triangles. -/
noncomputable def computeNormalsAux (vertices : List ℝ) (indices : List ℕ)
    (triangleCount : ℕ) : (ℕ → V3) × (ℕ → ℕ) :=
  (List.range triangleCount).foldl (accumStep vertices indices)
    (fun _ => ⟨0, 0, 0⟩, fun _ => 0)

/-- The final per vertex normal: average the accumulated sum over the
contribution count and renormalize when the average is longer than 0.0001;
vertices with no contributing faces keep the zero accumulation. -/
noncomputable def vertexNormal (vertices : List ℝ) (indices : List ℕ)
    (triangleCount : ℕ) (v : ℕ) : V3 :=
  let A := computeNormalsAux vertices indices triangleCount
  let s := A.1 v
  if A.2 v > 0 then
    let avg : V3 := ⟨s.x * (1 / (A.2 v : ℝ)), s.y * (1 / (A.2 v : ℝ)),
      s.z * (1 / (A.2 v : ℝ))⟩
    let len := normV3 avg
    if len > 1 / 10000 then ⟨avg.x * (1 / len), avg.y * (1 / len), avg.z * (1 / len)⟩
    else avg
  else s

/-- computeNormals: the flat normal buffer, one processed vertex per three
entries (a trailing remainder of a buffer whose length is not a multiple of
three stays zero, as in the allocated Float32Array). -/
noncomputable def computeNormals (vertices : List ℝ) (indices : List ℕ)
    (triangleCount : ℕ) : List ℝ :=
  ((List.range (vertices.length / 3)).map (fun v =>
    let n := vertexNormal vertices indices triangleCount v
    [n.x, n.y, n.z])).flatten ++ List.replicate (vertices.length % 3) 0

/-- The Mesh record of the mesh converter module. -/
structure MeshR where
  vertices : List ℝ
  indices : List ℕ
  normals : List ℝ
  vertexCount : ℕ
  indexCount : ℕ

/-- delaunayTriangulation (the exhaustive enumerator of the mesh converter):
collect capped valid triples in loop order, fail when none was found, else
assemble the mesh with computed normals. -/
noncomputable def delaunayTriangulation (vertices : List ℝ) (count : ℕ) :
    Option MeshR :=
  let ts := collectValid vertices maxTrianglesCap (lexTriples count)
  let indices := (ts.map (fun t => [t.1, t.2.1, t.2.2])).flatten
  if indices = [] then none
  else some ⟨vertices, indices, computeNormals vertices indices ts.length,
    count, indices.length⟩

end ExhaustiveMesh

/-!  Helper lemmas. -/

lemma validateDelaunatorResult_success {res : DelaunatorOutput} {n : ℕ}
    {tris : List ℕ} {pc : ℕ}
    (h : validateDelaunatorResult res n = .success tris pc) :
    pc = n ∧ tris = res.triangles ∧ tris.length % 3 = 0 ∧ tris.length ≠ 0 ∧
      ∀ i ∈ tris, i < n := by
  unfold validateDelaunatorResult at h
  dsimp only at h
  split_ifs at h with h1 h2 h3
  · split at h
    · split_ifs at h with h4
      cases h
      refine ⟨rfl, rfl, by omega, h1, ?_⟩
      intro i hi
      by_contra hge
      have hany : (res.triangles.any fun index => decide (n ≤ index)) = true := by
        simp only [List.any_eq_true, decide_eq_true_eq]
        exact ⟨i, hi, by omega⟩
      exact h3 hany
    · cases h
      refine ⟨rfl, rfl, by omega, h1, ?_⟩
      intro i hi
      by_contra hge
      have hany : (res.triangles.any fun index => decide (n ≤ index)) = true := by
        simp only [List.any_eq_true, decide_eq_true_eq]
        exact ⟨i, hi, by omega⟩
      exact h3 hany

lemma filterTriples_mem_lt :
    ∀ (l : List ℕ) (pc : ℕ), ∀ i ∈ filterTriples l pc, i < pc := by
  intro l pc
  induction l, pc using filterTriples.induct with
  | case1 i0 i1 i2 rest pc hlt ih =>
    intro i hi
    rw [filterTriples, if_pos hlt] at hi
    simp only [List.mem_cons] at hi
    rcases hi with rfl | rfl | rfl | hi
    · exact hlt.1
    · exact hlt.2.1
    · exact hlt.2.2
    · exact ih i hi
  | case2 i0 i1 i2 rest pc hlt ih =>
    intro i hi
    rw [filterTriples, if_neg hlt] at hi
    exact ih i hi
  | case3 l pc h1 =>
    rcases l with _ | ⟨a, _ | ⟨b, _ | ⟨c, rest⟩⟩⟩
    · simp [filterTriples]
    · simp [filterTriples]
    · simp [filterTriples]
    · exact absurd rfl (h1 a b c rest)

lemma advanceAttempt_result_eq (orig : List VPoint) (boundingBox : BoundingBox)
    (st : LoopState) : (advanceAttempt orig boundingBox st).1.result = st.result := by
  unfold advanceAttempt
  dsimp only
  split_ifs
  · split
    · rfl
    · rfl
  · rfl
  · split
    · rfl
    · rfl
  · rfl

lemma attemptOnce_success_spec (oracle : DelaunayOracle) (orig : List VPoint)
    (boundingBox : BoundingBox) (st : LoopState) (tris : List ℕ) (pc : ℕ)
    (h : (attemptOnce oracle orig boundingBox st).1.result = some (.success tris pc)) :
    pc = (attemptOnce oracle orig boundingBox st).1.current.length ∧
    tris.length % 3 = 0 ∧ tris.length ≠ 0 ∧ ∀ i ∈ tris, i < pc := by
  rcases ho : oracle (normalizeCoordinates st.current
      (computeCoordinateRange st.current)).coords with _ | d
  · have hA : attemptOnce oracle orig boundingBox st =
        advanceAttempt orig boundingBox
          { st with
            trace := st.trace ++ [PipelineEvent.triangulate st.current],
            result := some (.error .delaunayThrew st.current.length) } := by
      simp only [attemptOnce, ho]
    rw [hA, advanceAttempt_result_eq] at h
    simp at h
  · rcases hv : validateDelaunatorResult d st.current.length with
      ⟨t0, pc0⟩ | ⟨pc0, r0⟩ | ⟨m0, pc0⟩
    · have hA : attemptOnce oracle orig boundingBox st =
          ({ st with
             trace := st.trace ++ [PipelineEvent.triangulate st.current],
             result := some (.success t0 pc0) }, false) := by
        simp only [attemptOnce, ho, hv]
      rw [hA] at h ⊢
      simp only [Option.some.injEq, TriangulationResult.success.injEq] at h
      obtain ⟨rfl, rfl⟩ := h
      obtain ⟨hpc, htris, hmod, hne, hlt⟩ := validateDelaunatorResult_success hv
      subst hpc
      exact ⟨rfl, hmod, hne, hlt⟩
    · have hA : attemptOnce oracle orig boundingBox st =
          advanceAttempt orig boundingBox
            { st with
              trace := st.trace ++ [PipelineEvent.triangulate st.current],
              result := some (.empty pc0 r0) } := by
        simp only [attemptOnce, ho, hv]
      rw [hA, advanceAttempt_result_eq] at h
      simp at h
    · have hA : attemptOnce oracle orig boundingBox st =
          advanceAttempt orig boundingBox
            { st with
              trace := st.trace ++ [PipelineEvent.triangulate st.current],
              result := some (.error m0 pc0) } := by
        simp only [attemptOnce, ho, hv]
      rw [hA, advanceAttempt_result_eq] at h
      simp at h

lemma attemptOnce_cont_not_success (oracle : DelaunayOracle) (orig : List VPoint)
    (boundingBox : BoundingBox) (st : LoopState)
    (h : (attemptOnce oracle orig boundingBox st).2 = true) :
    ∀ tris pc, (attemptOnce oracle orig boundingBox st).1.result ≠
      some (.success tris pc) := by
  rcases ho : oracle (normalizeCoordinates st.current
      (computeCoordinateRange st.current)).coords with _ | d
  · have hA : attemptOnce oracle orig boundingBox st =
        advanceAttempt orig boundingBox
          { st with
            trace := st.trace ++ [PipelineEvent.triangulate st.current],
            result := some (.error .delaunayThrew st.current.length) } := by
      simp only [attemptOnce, ho]
    rw [hA, advanceAttempt_result_eq]
    simp
  · rcases hv : validateDelaunatorResult d st.current.length with
      ⟨t0, pc0⟩ | ⟨pc0, r0⟩ | ⟨m0, pc0⟩
    · have hA : attemptOnce oracle orig boundingBox st =
          ({ st with
             trace := st.trace ++ [PipelineEvent.triangulate st.current],
             result := some (.success t0 pc0) }, false) := by
        simp only [attemptOnce, ho, hv]
      rw [hA] at h
      simp at h
    · have hA : attemptOnce oracle orig boundingBox st =
          advanceAttempt orig boundingBox
            { st with
              trace := st.trace ++ [PipelineEvent.triangulate st.current],
              result := some (.empty pc0 r0) } := by
        simp only [attemptOnce, ho, hv]
      rw [hA, advanceAttempt_result_eq]
      simp
    · have hA : attemptOnce oracle orig boundingBox st =
          advanceAttempt orig boundingBox
            { st with
              trace := st.trace ++ [PipelineEvent.triangulate st.current],
              result := some (.error m0 pc0) } := by
        simp only [attemptOnce, ho, hv]
      rw [hA, advanceAttempt_result_eq]
      simp

/-- A loop state whose result slot does not hold a success. -/
def NotSucc (st : LoopState) : Prop :=
  ∀ tris pc, st.result ≠ some (.success tris pc)

/-- A loop state whose success result, if any, is well formed: the recorded
point count is the length of the current point set and the triangle list is
a nonempty list of index triples below it. -/
def StOK (st : LoopState) : Prop :=
  ∀ tris pc, st.result = some (.success tris pc) →
    pc = st.current.length ∧ tris.length % 3 = 0 ∧ tris.length ≠ 0 ∧
      ∀ i ∈ tris, i < pc

lemma triLoop_success_spec (oracle : DelaunayOracle) (dir : ℕ → ℕ → ℚ × ℚ)
    (orig : List VPoint) (boundingBox : BoundingBox) :
    ∀ (fuel : ℕ) (st : LoopState), NotSucc st →
      StOK (triLoop oracle dir orig boundingBox fuel st) := by
  intro fuel
  induction fuel with
  | zero =>
    intro st hns tris pc h
    rw [triLoop] at h
    exact absurd h (hns tris pc)
  | succ n ih =>
    intro st hns
    rw [triLoop]
    dsimp only
    split
    · intro tris pc h
      exact absurd h (hns tris pc)
    · split
      · split
        · split
          · exact ih _ hns
          · split
            · apply ih
              apply attemptOnce_cont_not_success
              assumption
            · intro tris pc h
              exact attemptOnce_success_spec oracle orig boundingBox _ tris pc h
        · split
          · apply ih
            apply attemptOnce_cont_not_success
            assumption
          · intro tris pc h
            exact attemptOnce_success_spec oracle orig boundingBox _ tris pc h
      · split
        · apply ih
          apply attemptOnce_cont_not_success
          assumption
        · intro tris pc h
          exact attemptOnce_success_spec oracle orig boundingBox _ tris pc h

lemma filterTriples_length_mod :
    ∀ (l : List ℕ) (pc : ℕ), (filterTriples l pc).length % 3 = 0 := by
  intro l pc
  induction l, pc using filterTriples.induct with
  | case1 i0 i1 i2 rest pc hlt ih =>
    rw [filterTriples, if_pos hlt]
    simp only [List.length_cons]
    omega
  | case2 i0 i1 i2 rest pc hlt ih =>
    rw [filterTriples, if_neg hlt]
    exact ih
  | case3 l pc h1 =>
    rcases l with _ | ⟨a, _ | ⟨b, _ | ⟨c, rest⟩⟩⟩
    · simp [filterTriples]
    · simp [filterTriples]
    · simp [filterTriples]
    · exact absurd rfl (h1 a b c rest)

lemma createFallback_success_spec {oracle : DelaunayOracle} {points : List VPoint}
    {boundingBox : BoundingBox} {tris : List ℕ} {pc : ℕ}
    (h : createFallbackTriangulation oracle points boundingBox = .success tris pc) :
    pc = points.length ∧ tris.length % 3 = 0 ∧ 3 ≤ tris.length ∧
      ∀ i ∈ tris, i < points.length := by
  unfold createFallbackTriangulation at h
  dsimp only at h
  split_ifs at h with h1
  split at h
  · simp at h
  · split at h
    · rename_i t0 pc0 hval
      split_ifs at h with h2
      · simp only [TriangulationResult.success.injEq] at h
        obtain ⟨rfl, rfl⟩ := h
        exact ⟨rfl, filterTriples_length_mod t0 points.length, h2,
          filterTriples_mem_lt t0 points.length⟩
    · simp at h

lemma fitLength_length (l : List ℚ) (n : ℕ) : (fitLength l n).length = n := by
  simp only [fitLength, List.length_append, List.length_take, List.length_replicate]
  omega

lemma assembleMesh_positions_length (bn : List ℚ → List ℕ → List ℚ)
    (points : List VPoint) (triangles : List ℕ) :
    (assembleMesh bn points triangles).positions.length = 3 * points.length := by
  induction points with
  | nil => rfl
  | cons p rest ih =>
    simp only [assembleMesh, List.map_cons, List.flatten_cons, List.length_append,
      List.length_cons, List.length_nil] at ih ⊢
    omega

lemma assembleMesh_normals_length (bn : List ℚ → List ℕ → List ℚ)
    (points : List VPoint) (triangles : List ℕ) :
    (assembleMesh bn points triangles).normals.length =
      (assembleMesh bn points triangles).positions.length := by
  simp only [assembleMesh]
  exact fitLength_length _ _

lemma runCapped_ok_props (oracle : DelaunayOracle) (dir : ℕ → ℕ → ℚ × ℚ)
    (bn : List ℚ → List ℕ → List ℚ) (vpoints : List VPoint)
    (boundingBox : BoundingBox) (st : LoopState) (m : NavMeshOut) (stF : LoopState)
    (hres : st.result = none)
    (h : runConditioned.runCapped oracle dir bn vpoints boundingBox st = (.ok m, stF)) :
    ∃ pts tris, m = assembleMesh bn pts tris ∧ tris.length % 3 = 0 ∧
      tris.length ≠ 0 ∧ ∀ i ∈ tris, i < pts.length := by
  unfold runConditioned.runCapped at h
  dsimp only at h
  have hns : ∀ (st2 : LoopState), st2.result = none → NotSucc st2 := by
    intro st2 h2 tris pc hcontr
    rw [h2] at hcontr
    cases hcontr
  split at h
  · rename_i triangles pc0 hFres
    have hok := triLoop_success_spec oracle dir vpoints boundingBox 7 _
      (by
        apply hns
        split_ifs
        · exact hres
        · exact hres) triangles pc0 hFres
    simp only [Prod.mk.injEq, Except.ok.injEq] at h
    obtain ⟨rfl, rfl⟩ := h
    exact ⟨_, triangles, rfl, hok.2.1, hok.2.2.1, by
      intro i hi
      have := hok.2.2.2 i hi
      omega⟩
  · split at h
    · rename_i tris0 pc0 hFall
      obtain ⟨hpc, hmod, hlen, hlt⟩ := createFallback_success_spec hFall
      simp only [Prod.mk.injEq, Except.ok.injEq] at h
      obtain ⟨rfl, rfl⟩ := h
      exact ⟨_, tris0, rfl, hmod, by omega, hlt⟩
    · simp at h

lemma generateNavigableMesh_ok_exists {oracle : DelaunayOracle}
    {dir : ℕ → ℕ → ℚ × ℚ} {bn : List ℚ → List ℕ → List ℚ}
    {input : List (ℚ × ℚ × ℚ)} {m : NavMeshOut}
    (h : generateNavigableMesh oracle dir bn input = .ok m) :
    ∃ pts tris, m = assembleMesh bn pts tris ∧ tris.length % 3 = 0 ∧
      tris.length ≠ 0 ∧ ∀ i ∈ tris, i < pts.length := by
  unfold generateNavigableMesh runPipeline at h
  dsimp only at h
  split_ifs at h with h1 h2 h3
  unfold runConditioned at h
  dsimp only at h
  split at h
  · split at h
    · simp at h
    · rcases hrc : runConditioned.runCapped oracle dir bn (conditionedPoints input)
          (validateAndDeduplicatePoints input).boundingBox
          { current := ensureNonDegeneratePoints dir (conditionedPoints input)
              (validateAndDeduplicatePoints input).boundingBox,
            strategy := .noneStrat (conditionedPoints input).length,
            attempted := [], attemptCount := 0, trace := [], result := none }
        with ⟨res, stF⟩
      rw [hrc] at h
      simp only at h
      subst h
      exact runCapped_ok_props oracle dir bn _ _ _ m stF rfl hrc
  · rcases hrc : runConditioned.runCapped oracle dir bn (conditionedPoints input)
        (validateAndDeduplicatePoints input).boundingBox
        { current := conditionedPoints input,
          strategy := .noneStrat (conditionedPoints input).length,
          attempted := [], attemptCount := 0, trace := [], result := none }
      with ⟨res, stF⟩
    rw [hrc] at h
    simp only at h
    subst h
    exact runCapped_ok_props oracle dir bn _ _ _ m stF rfl hrc

lemma generateNavigableMesh_ok_props {oracle : DelaunayOracle}
    {dir : ℕ → ℕ → ℚ × ℚ} {bn : List ℚ → List ℕ → List ℚ}
    {input : List (ℚ × ℚ × ℚ)} {m : NavMeshOut}
    (h : generateNavigableMesh oracle dir bn input = .ok m) :
    m.positions.length % 3 = 0 ∧ m.normals.length = m.positions.length ∧
    m.indices.length % 3 = 0 ∧ m.indices.length ≠ 0 ∧
    ∀ i ∈ m.indices, i < m.positions.length / 3 := by
  obtain ⟨pts, tris, rfl, hmod, hne, hlt⟩ := generateNavigableMesh_ok_exists h
  have hplen := assembleMesh_positions_length bn pts tris
  have hnlen := assembleMesh_normals_length bn pts tris
  have hind : (assembleMesh bn pts tris).indices = tris := rfl
  refine ⟨by omega, hnlen, by rw [hind]; exact hmod, by rw [hind]; exact hne, ?_⟩
  intro i hi
  rw [hind] at hi
  have := hlt i hi
  rw [hplen]
  omega

/-!  Claim C5: the bounding box corner fallback. -/

/-- C5: when all progressive attempts fail, the fallback appends the four
bounding box corner points to the last attempted point set, triangulates the
combined set, discards every output triangle referencing a corner point
(index at least the original point count), succeeds exactly when at least
one triangle remains, and every triangle of a successful fallback result
references only original points. -/
theorem c5_fallback_corner_filter (oracle : DelaunayOracle) (points : List VPoint)
    (boundingBox : BoundingBox) (h3 : 3 ≤ points.length) :
    (∀ tris pc, createFallbackTriangulation oracle points boundingBox =
        .success tris pc → pc = points.length ∧ ∀ i ∈ tris, i < points.length) ∧
    ((∃ tris pc, createFallbackTriangulation oracle points boundingBox =
        .success tris pc) ↔
      ∃ dres tris0,
        oracle (normalizeCoordinates (points ++ fallbackCorners boundingBox)
          (computeCoordinateRange (points ++ fallbackCorners boundingBox))).coords =
            some dres ∧
        validateDelaunatorResult dres (points ++ fallbackCorners boundingBox).length =
          .success tris0 (points ++ fallbackCorners boundingBox).length ∧
        3 ≤ (filterTriples tris0 points.length).length) := by
  constructor
  · intro tris pc h
    obtain ⟨hpc, _, _, hlt⟩ := createFallback_success_spec h
    exact ⟨hpc, hlt⟩
  · constructor
    · rintro ⟨tris, pc, h⟩
      unfold createFallbackTriangulation at h
      dsimp only at h
      split_ifs at h with h1
      split at h
      · simp at h
      · rename_i d ho
        split at h
        · rename_i t0 pc0 hval
          split_ifs at h with h2
          obtain ⟨hpc0, htr, _, _, _⟩ := validateDelaunatorResult_success hval
          subst hpc0
          exact ⟨d, t0, ho, hval, h2⟩
        · simp at h
    · rintro ⟨dres, tris0, ho, hval, hfil⟩
      refine ⟨filterTriples tris0 points.length, points.length, ?_⟩
      unfold createFallbackTriangulation
      dsimp only
      rw [if_neg (by omega), ho]
      dsimp only
      rw [hval]
      dsimp only
      rw [if_pos hfil]

/-- A Delaunay oracle for the fallback witness: one triangle of the first
three (non corner) points, no half edge array. -/
def c5Oracle : DelaunayOracle := fun _ => some ⟨[0, 1, 2], none⟩

/-- Concrete points for the fallback witness. -/
def c5Points : List VPoint := [⟨0, 0, 0, 0⟩, ⟨1, 0, 1, 0⟩, ⟨0, 1, 2, 0⟩]

/-- Concrete bounding box for the fallback witness. -/
def c5Box : BoundingBox := ⟨0, 1, 0, 1, 1, 1⟩

/-- Witness for C5 at a concrete fallback run: the oracle returns the single
triangle 0-1-2, no index touches a corner, so the fallback succeeds with
exactly that triangle, and its indices stay below the original point
count. -/
theorem c5_witness :
    createFallbackTriangulation c5Oracle c5Points c5Box = .success [0, 1, 2] 3 ∧
    (([0, 1, 2] : List ℕ).all (· < c5Points.length)) = true := by
  have heval : createFallbackTriangulation c5Oracle c5Points c5Box =
      .success [0, 1, 2] 3 := by
    simp [createFallbackTriangulation, c5Oracle, c5Points, c5Box,
      validateDelaunatorResult, filterTriples, fallbackCorners]
  refine ⟨heval, ?_⟩
  have h := (c5_fallback_corner_filter c5Oracle c5Points c5Box
    (by simp [c5Points])).1 [0, 1, 2] 3 heval
  simp only [List.all_eq_true, decide_eq_true_eq]
  intro i hi
  exact h.2 i hi

/-!  Claim C1: success and index bounds of generateNavigableMesh. -/

/-- An oracle standing for a Delaunator constructor that always throws. -/
def c1Oracle : DelaunayOracle := fun _ => none

/-- A fixed unit direction for the perturbation oracle. -/
def c1Dir : ℕ → ℕ → ℚ × ℚ := fun _ _ => (1, 0)

/-- A normal oracle writing nothing (the buffer keeps its zero fill). -/
def c1Bn : List ℚ → List ℕ → List ℚ := fun _ _ => []

/-- A genuinely non collinear right triangle with spread 1/8192 (exactly
representable in binary floating point): distinct dedup buckets, not
collinear, but bounding box area below 1e-6 and unfixable by the
perturbation pass. -/
def c1TinyInput : List (ℚ × ℚ × ℚ) :=
  [(0, 0, 0), (1/8192, 0, 0), (0, 0, 1/8192)]

/-- Counterexample to C1: this input keeps three points after dedup, is not
collinear (neither by the pipeline check nor geometrically: the edge cross
product is nonzero), yet generateNavigableMesh fails (DegenerateGeometry)
for every triangulation oracle, because the bounding box area 2^-26 is
below the 1e-6 health threshold and the perturbation pass leaves the points
unchanged.  So triangulation success is not guaranteed by the claim
hypotheses. -/
theorem c1_counterexample :
    (validateAndDeduplicatePoints c1TinyInput).validatedPoints.length = 3 ∧
    checkCollinearity (validateAndDeduplicatePoints c1TinyInput).validatedPoints
      = false ∧
    (1/8192 - 0) * (1/8192 - 0) - (0 - 0) * (0 - 0) ≠ (0 : ℚ) ∧
    generateNavigableMesh c1Oracle c1Dir c1Bn c1TinyInput =
      .error .degenerateGeometry := by
  refine ⟨?_, ?_, by norm_num, ?_⟩
  · norm_num [c1TinyInput, validateAndDeduplicatePoints, dedupGo, hashPoint,
      pointTolerance]
  · norm_num [c1TinyInput, validateAndDeduplicatePoints, dedupGo, hashPoint,
      pointTolerance, checkCollinearity, consecutiveTriples, computeCoordinateRange,
      nearCollinearTolerance, List.all, List.countP, List.countP.go, abs]
  · norm_num [c1TinyInput, c1Oracle, c1Dir, c1Bn, generateNavigableMesh, runPipeline,
      validateAndDeduplicatePoints, dedupGo, hashPoint, pointTolerance, bboxOfPoints,
      conditionedPoints, checkCollinearity, consecutiveTriples, computeCoordinateRange,
      nearCollinearTolerance, runConditioned, validatePointSetGeometry,
      minBoundingBoxArea, minPointSpreadRatioQ, countUniqueKeys,
      ensureNonDegeneratePoints, perturbCandidate, perturbPoint, perturbGo,
      List.all, List.countP, List.countP.go, List.enum, List.enumFrom, abs]

/-- C1 (amended): generateNavigableMesh is not guaranteed to succeed on
every deduplicated non collinear input of at least three points (it can
throw DegenerateGeometry, see the counterexample); but whenever it
succeeds, every output index idx satisfies 0 <= idx < vertexCount, the
number of points of the triangulated set. -/
theorem c1_success_index_bounds (oracle : DelaunayOracle) (dir : ℕ → ℕ → ℚ × ℚ)
    (bn : List ℚ → List ℕ → List ℚ) (input : List (ℚ × ℚ × ℚ)) (m : NavMeshOut)
    (h : generateNavigableMesh oracle dir bn input = .ok m) :
    ∀ i ∈ m.indices, i < m.positions.length / 3 :=
  (generateNavigableMesh_ok_props h).2.2.2.2

/-- An oracle returning the two triangle fan of the unit square. -/
def c1SqOracle : DelaunayOracle := fun _ => some ⟨[0, 1, 2, 0, 2, 3], none⟩

/-- The four corners of the unit square at height zero. -/
def c1SqInput : List (ℚ × ℚ × ℚ) := [(0, 0, 0), (1, 0, 0), (1, 0, 1), (0, 0, 1)]

/-- Witness for the amended C1 at a concrete successful run on the unit
square: the pipeline succeeds on the first attempt and all six output
indices are below the vertex count four. -/
theorem c1_witness :
    generateNavigableMesh c1SqOracle c1Dir c1Bn c1SqInput =
      .ok ⟨[0, 0, 0, 1, 0, 0, 1, 0, 1, 0, 0, 1], [0, 1, 2, 0, 2, 3],
        [0, 0, 0, 0, 0, 0, 0, 0, 0, 0, 0, 0]⟩ ∧
    (([0, 1, 2, 0, 2, 3] : List ℕ).all (· < 12 / 3)) = true := by
  have heval : generateNavigableMesh c1SqOracle c1Dir c1Bn c1SqInput =
      .ok ⟨[0, 0, 0, 1, 0, 0, 1, 0, 1, 0, 0, 1], [0, 1, 2, 0, 2, 3],
        [0, 0, 0, 0, 0, 0, 0, 0, 0, 0, 0, 0]⟩ := by
    norm_num [c1SqInput, c1SqOracle, c1Dir, c1Bn, generateNavigableMesh, runPipeline,
      validateAndDeduplicatePoints, dedupGo, hashPoint, pointTolerance, bboxOfPoints,
      conditionedPoints, checkCollinearity, consecutiveTriples, computeCoordinateRange,
      nearCollinearTolerance, runConditioned, runConditioned.runCapped,
      validatePointSetGeometry, minBoundingBoxArea, maxPointsForTriangulation,
      minPointSpreadRatioQ, countUniqueKeys, triLoop, attemptOnce, advanceAttempt,
      normalizeCoordinates, progressiveRatios, validateDelaunatorResult, assembleMesh,
      fitLength, List.replicate, List.all, List.countP, List.countP.go, List.enum,
      List.enumFrom, abs]
  refine ⟨heval, ?_⟩
  have h := c1_success_index_bounds c1SqOracle c1Dir c1Bn c1SqInput _ heval
  simp only [List.all_eq_true, decide_eq_true_eq]
  intro i hi
  exact h i hi

/-!  Claim C2: structural invariants of the assembled Mesh record. -/

/-- C2: every Mesh produced by a successful conversion satisfies the five
structural invariants: vertices.length = vertexCount*3, normals.length =
vertices.length, indices.length = indexCount, indexCount divisible by 3,
and every index below vertexCount. -/
theorem c2_mesh_invariants (oracle : DelaunayOracle) (dir : ℕ → ℕ → ℚ × ℚ)
    (bn : List ℚ → List ℕ → List ℚ) (pointCloud : List (ℚ × ℚ × ℚ)) (m : MeshOut)
    (h : convertPointCloudToMesh oracle dir bn pointCloud = .ok m) :
    m.vertices.length = m.vertexCount * 3 ∧
    m.normals.length = m.vertices.length ∧
    m.indices.length = m.indexCount ∧
    m.indexCount % 3 = 0 ∧
    ∀ i ∈ m.indices, i < m.vertexCount := by
  unfold convertPointCloudToMesh at h
  split_ifs at h with h1
  split at h
  · simp at h
  · rename_i m0 hgen
    obtain ⟨hp3, hn, hi3, hine, hlt⟩ := generateNavigableMesh_ok_props hgen
    simp only [Except.ok.injEq] at h
    subst h
    refine ⟨by dsimp only; omega, hn, rfl, hi3, hlt⟩

/-- An oracle returning the single triangle of a three point input. -/
def c2Oracle : DelaunayOracle := fun _ => some ⟨[0, 1, 2], none⟩

/-- A right triangle point cloud at height zero. -/
def c2Input : List (ℚ × ℚ × ℚ) := [(0, 0, 0), (1, 0, 0), (0, 0, 1)]

/-- The mesh produced by the conversion of the witness input. -/
def c2Mesh : MeshOut :=
  ⟨[0, 0, 0, 1, 0, 0, 0, 0, 1], [0, 1, 2], [0, 0, 0, 0, 0, 0, 0, 0, 0], 3, 3⟩

/-- Witness for C2 at a concrete successful conversion of a triangle. -/
theorem c2_witness :
    convertPointCloudToMesh c2Oracle c1Dir c1Bn c2Input = .ok c2Mesh ∧
    c2Mesh.vertices.length = c2Mesh.vertexCount * 3 ∧
    c2Mesh.normals.length = c2Mesh.vertices.length ∧
    c2Mesh.indices.length = c2Mesh.indexCount ∧
    c2Mesh.indexCount % 3 = 0 ∧
    (c2Mesh.indices.all (· < c2Mesh.vertexCount)) = true := by
  have heval : convertPointCloudToMesh c2Oracle c1Dir c1Bn c2Input = .ok c2Mesh := by
    norm_num [c2Input, c2Oracle, c1Dir, c1Bn, c2Mesh, convertPointCloudToMesh,
      generateNavigableMesh, runPipeline,
      validateAndDeduplicatePoints, dedupGo, hashPoint, pointTolerance, bboxOfPoints,
      conditionedPoints, checkCollinearity, consecutiveTriples, computeCoordinateRange,
      nearCollinearTolerance, runConditioned, runConditioned.runCapped,
      validatePointSetGeometry, minBoundingBoxArea, maxPointsForTriangulation,
      minPointSpreadRatioQ, countUniqueKeys, triLoop, attemptOnce, advanceAttempt,
      normalizeCoordinates, progressiveRatios, validateDelaunatorResult, assembleMesh,
      fitLength, List.replicate, List.all, List.countP, List.countP.go, List.enum,
      List.enumFrom, abs]
  obtain ⟨hv, hn, hi, hm, hlt⟩ :=
    c2_mesh_invariants c2Oracle c1Dir c1Bn c2Input c2Mesh heval
  refine ⟨heval, hv, hn, hi, hm, ?_⟩
  simp only [List.all_eq_true, decide_eq_true_eq]
  intro i hi2
  exact hlt i hi2

/-!  Claims C3 and C9: the spatial hash deduplication. -/

/-- The bucket key of an input triple (x, y, z). -/
def keyOfTriple (q : ℚ × ℚ × ℚ) : ℤ × ℤ := hashPoint q.1 q.2.2 pointTolerance

/-- The bucket key of a validated point. -/
def keyOfPoint (p : VPoint) : ℤ × ℤ := hashPoint p.x p.z pointTolerance

/-- Specification view of the dedup pass, following the wording of the
design: walking the input in order with the processed prefix at hand, a
point is discarded when some earlier point occupies the same spatial hash
bucket, and otherwise kept verbatim (coordinates and height unchanged,
original index recorded); nothing is ever merged or averaged. -/
def keepFirstFrom : List (ℚ × ℚ × ℚ) → List (ℚ × ℚ × ℚ) → ℤ → List VPoint
  | _, [], _ => []
  | pre, (x, y, z) :: rest, i =>
    if ∃ q ∈ pre, keyOfTriple q = keyOfTriple (x, y, z) then
      keepFirstFrom (pre ++ [(x, y, z)]) rest (i + 1)
    else
      ⟨x, z, i, y⟩ :: keepFirstFrom (pre ++ [(x, y, z)]) rest (i + 1)

/-- The specification of the dedup pass over the whole input. -/
def keepFirstSpec (input : List (ℚ × ℚ × ℚ)) : List VPoint :=
  keepFirstFrom [] input 0

lemma dedupGo_eq_keepFirstFrom :
    ∀ (input pre : List (ℚ × ℚ × ℚ)) (i : ℤ) (seen : List (ℤ × ℤ)),
      (∀ k, k ∈ seen ↔ ∃ q ∈ pre, keyOfTriple q = k) →
      (dedupGo input i seen).1 = keepFirstFrom pre input i := by
  intro input
  induction input with
  | nil => intro pre i seen hseen; rfl
  | cons t rest ih =>
    intro pre i seen hseen
    obtain ⟨x, y, z⟩ := t
    rw [dedupGo, keepFirstFrom]
    dsimp only
    by_cases hk : hashPoint x z pointTolerance ∈ seen
    · rw [if_pos hk, if_pos (by
        obtain ⟨q, hq, hqe⟩ := (hseen _).mp hk
        exact ⟨q, hq, hqe⟩)]
      apply ih
      intro k
      constructor
      · intro hks
        obtain ⟨q, hq, hqe⟩ := (hseen k).mp hks
        exact ⟨q, by simp [hq], hqe⟩
      · rintro ⟨q, hq, hqe⟩
        simp only [List.mem_append, List.mem_singleton] at hq
        rcases hq with hq | rfl
        · exact (hseen k).mpr ⟨q, hq, hqe⟩
        · exact hqe ▸ hk
    · rw [if_neg hk, if_neg (by
        rintro ⟨q, hq, hqe⟩
        exact hk ((hseen _).mpr ⟨q, hq, hqe⟩))]
      dsimp only
      congr 1
      apply ih
      intro k
      constructor
      · intro hks
        simp only [List.mem_cons] at hks
        rcases hks with rfl | hks
        · exact ⟨(x, y, z), by simp, rfl⟩
        · obtain ⟨q, hq, hqe⟩ := (hseen k).mp hks
          exact ⟨q, by simp [hq], hqe⟩
      · rintro ⟨q, hq, hqe⟩
        simp only [List.mem_append, List.mem_singleton] at hq
        rcases hq with hq | rfl
        · exact List.mem_cons_of_mem _ ((hseen k).mpr ⟨q, hq, hqe⟩)
        · simp [← hqe, keyOfTriple]

lemma dedupGo_length_le :
    ∀ (input : List (ℚ × ℚ × ℚ)) (i : ℤ) (seen : List (ℤ × ℤ)),
      (dedupGo input i seen).1.length ≤ input.length := by
  intro input
  induction input with
  | nil => intro i seen; simp [dedupGo]
  | cons t rest ih =>
    intro i seen
    obtain ⟨x, y, z⟩ := t
    rw [dedupGo]
    dsimp only
    split_ifs
    · exact le_trans (ih _ _) (by simp)
    · simpa using ih (i + 1) _

lemma runCapped_not_insufficient (oracle : DelaunayOracle) (dir : ℕ → ℕ → ℚ × ℚ)
    (bn : List ℚ → List ℕ → List ℚ) (vpoints : List VPoint)
    (boundingBox : BoundingBox) (st : LoopState) :
    (runConditioned.runCapped oracle dir bn vpoints boundingBox st).1 ≠
      .error .insufficientPoints := by
  unfold runConditioned.runCapped
  dsimp only
  split
  · simp
  · split
    · simp
    · simp

/-- C3: deduplication keeps exactly the first point of each occupied
spatial hash bucket, verbatim and in input order, discarding later points
of the same bucket; and generateNavigableMesh fails with the
InsufficientPoints kind exactly when fewer than three points remain after
deduplication. -/
theorem c3_dedup_first_and_insufficient (input : List (ℚ × ℚ × ℚ))
    (oracle : DelaunayOracle) (dir : ℕ → ℕ → ℚ × ℚ)
    (bn : List ℚ → List ℕ → List ℚ) :
    (validateAndDeduplicatePoints input).validatedPoints = keepFirstSpec input ∧
    (generateNavigableMesh oracle dir bn input = .error .insufficientPoints ↔
      (validateAndDeduplicatePoints input).validatedPoints.length < 3) := by
  have hshape : (validateAndDeduplicatePoints input).validatedPoints =
      keepFirstSpec input := by
    unfold validateAndDeduplicatePoints keepFirstSpec
    exact dedupGo_eq_keepFirstFrom input [] 0 [] (by simp)
  refine ⟨hshape, ?_⟩
  have hlen : (validateAndDeduplicatePoints input).validatedPoints.length ≤
      input.length := dedupGo_length_le input 0 []
  unfold generateNavigableMesh runPipeline
  dsimp only
  split_ifs with h1 h2 h3
  · simpa using by omega
  · simpa using h2
  · constructor
    · intro h
      simp at h
    · intro h
      omega
  · constructor
    · intro h
      exact absurd h (by
        unfold runConditioned
        dsimp only
        split
        · split
          · simp
          · have := runCapped_not_insufficient oracle dir bn (conditionedPoints input)
              (validateAndDeduplicatePoints input).boundingBox
              { current := ensureNonDegeneratePoints dir (conditionedPoints input)
                  (validateAndDeduplicatePoints input).boundingBox,
                strategy := .noneStrat (conditionedPoints input).length,
                attempted := [], attemptCount := 0, trace := [], result := none }
            intro hcontr
            exact this hcontr
        · have := runCapped_not_insufficient oracle dir bn (conditionedPoints input)
            (validateAndDeduplicatePoints input).boundingBox
            { current := conditionedPoints input,
              strategy := .noneStrat (conditionedPoints input).length,
              attempted := [], attemptCount := 0, trace := [], result := none }
          intro hcontr
          exact this hcontr)
    · intro h
      omega

lemma dedupGo_map_triple_of_nodup :
    ∀ (input : List (ℚ × ℚ × ℚ)) (i : ℤ) (seen : List (ℤ × ℤ)),
      (input.map keyOfTriple).Nodup →
      (∀ q ∈ input, keyOfTriple q ∉ seen) →
      (dedupGo input i seen).1.map (fun p => (p.x, p.y, p.z)) = input := by
  intro input
  induction input with
  | nil => intro i seen _ _; rfl
  | cons t rest ih =>
    intro i seen hnd hns
    obtain ⟨x, y, z⟩ := t
    have hxz : hashPoint x z pointTolerance ∉ seen := hns (x, y, z) (by simp)
    simp only [List.map_cons, List.nodup_cons] at hnd
    have hside : ∀ q ∈ rest, keyOfTriple q ∉ hashPoint x z pointTolerance :: seen := by
      intro q hq
      simp only [List.mem_cons, not_or]
      refine ⟨?_, hns q (by simp [hq])⟩
      intro hqe
      apply hnd.1
      have hmem := List.mem_map_of_mem keyOfTriple hq
      rw [hqe] at hmem
      exact hmem
    rw [dedupGo]
    dsimp only
    rw [if_neg hxz]
    dsimp only
    rw [List.map_cons, ih (i + 1) _ hnd.2 hside]

lemma dedupGo_keys_nodup :
    ∀ (input : List (ℚ × ℚ × ℚ)) (i : ℤ) (seen : List (ℤ × ℤ)),
      ((dedupGo input i seen).1.map keyOfPoint).Nodup ∧
      ∀ p ∈ (dedupGo input i seen).1, keyOfPoint p ∉ seen := by
  intro input
  induction input with
  | nil => intro i seen; simp [dedupGo]
  | cons t rest ih =>
    intro i seen
    obtain ⟨x, y, z⟩ := t
    rw [dedupGo]
    dsimp only
    split_ifs with hk
    · exact ih (i + 1) seen
    · obtain ⟨hnd, hnotin⟩ := ih (i + 1) (hashPoint x z pointTolerance :: seen)
      constructor
      · dsimp only [List.map_cons]
        rw [List.nodup_cons]
        refine ⟨?_, hnd⟩
        intro hmem
        obtain ⟨p, hp, hpe⟩ := List.mem_map.mp hmem
        have := hnotin p hp
        simp only [List.mem_cons, not_or] at this
        exact this.1 hpe
      · intro p hp
        simp only [List.mem_cons] at hp
        rcases hp with rfl | hp
        · exact hk
        · have := hnotin p hp
          simp only [List.mem_cons, not_or] at this
          exact this.2

/-- C9: sanitizing an already deduplicated point set is idempotent: running
deduplication on the triples of its own output returns the same point count
and the same point data in the same order. -/
theorem c9_dedup_idempotent (input : List (ℚ × ℚ × ℚ)) :
    ((validateAndDeduplicatePoints
        ((validateAndDeduplicatePoints input).validatedPoints.map
          (fun p => (p.x, p.y, p.z)))).validatedPoints.length =
      (validateAndDeduplicatePoints input).validatedPoints.length) ∧
    (validateAndDeduplicatePoints
        ((validateAndDeduplicatePoints input).validatedPoints.map
          (fun p => (p.x, p.y, p.z)))).validatedPoints.map
        (fun p => (p.x, p.y, p.z)) =
      (validateAndDeduplicatePoints input).validatedPoints.map
        (fun p => (p.x, p.y, p.z)) := by
  have hkeys : (((validateAndDeduplicatePoints input).validatedPoints.map
      (fun p => (p.x, p.y, p.z))).map keyOfTriple).Nodup := by
    have h1 := (dedupGo_keys_nodup input 0 []).1
    have : ((validateAndDeduplicatePoints input).validatedPoints.map
        (fun p => (p.x, p.y, p.z))).map keyOfTriple =
        (validateAndDeduplicatePoints input).validatedPoints.map keyOfPoint := by
      rw [List.map_map]
      rfl
    rw [this]
    exact h1
  have hmain := dedupGo_map_triple_of_nodup
    ((validateAndDeduplicatePoints input).validatedPoints.map
      (fun p => (p.x, p.y, p.z))) 0 [] hkeys (by simp)
  constructor
  · have := congrArg List.length hmain
    simpa using this
  · exact hmain

/-!  Claim C10: frame conditions of ensureNonDegeneratePoints. -/

lemma perturbPoint_fields (dir : ℕ → ℕ → ℚ × ℚ) (s m : ℚ) (used : List (ℤ × ℤ))
    (i : ℕ) (p : VPoint) :
    (perturbPoint dir s m used i p).1.y = p.y ∧
    (perturbPoint dir s m used i p).1.originalIndex = p.originalIndex := by
  unfold perturbPoint
  dsimp only
  split_ifs
  · exact ⟨rfl, rfl⟩
  · exact ⟨rfl, rfl⟩

lemma perturbFold_spec (dir : ℕ → ℕ → ℚ × ℚ) (s m : ℚ) :
    ∀ (l : List (ℕ × VPoint)) (acc : List VPoint × List (ℤ × ℤ)),
      ∃ tailPts,
        (l.foldl (fun (acc : List VPoint × List (ℤ × ℤ)) ip =>
          let r := perturbPoint dir s m acc.2 ip.1 ip.2
          (acc.1 ++ [r.1], r.2)) acc).1 = acc.1 ++ tailPts ∧
        List.Forall₂ (fun (ip : ℕ × VPoint) (b : VPoint) =>
          b.y = ip.2.y ∧ b.originalIndex = ip.2.originalIndex) l tailPts := by
  intro l
  induction l with
  | nil => intro acc; exact ⟨[], by simp, List.Forall₂.nil⟩
  | cons ip rest ih =>
    intro acc
    obtain ⟨tailPts, heq, hfa⟩ := ih
      (acc.1 ++ [(perturbPoint dir s m acc.2 ip.1 ip.2).1],
        (perturbPoint dir s m acc.2 ip.1 ip.2).2)
    refine ⟨(perturbPoint dir s m acc.2 ip.1 ip.2).1 :: tailPts, ?_, ?_⟩
    · simpa [List.append_assoc] using heq
    · exact List.Forall₂.cons (perturbPoint_fields dir s m acc.2 ip.1 ip.2) hfa

lemma perturbCandidate_forall2 (dir : ℕ → ℕ → ℚ × ℚ) (points : List VPoint)
    (boundingBox : BoundingBox) :
    List.Forall₂ (fun a b => b.y = a.y ∧ b.originalIndex = a.originalIndex)
      points (perturbCandidate dir points boundingBox) := by
  unfold perturbCandidate
  dsimp only
  obtain ⟨tailPts, heq, hfa⟩ := perturbFold_spec dir
    (max boundingBox.width boundingBox.height * (1 / 10000)) (pointTolerance * 10)
    points.enum ([], [])
  rw [heq]
  simp only [List.nil_append]
  have : List.Forall₂ (fun (a : VPoint) (b : VPoint) =>
      b.y = a.y ∧ b.originalIndex = a.originalIndex)
      (points.enum.map Prod.snd) tailPts := by
    rw [List.forall₂_map_left_iff]
    exact hfa
  rwa [List.enum_map_snd] at this

/-- C10: the perturbation pass always returns a point list of the same
length and order as its input, with every y value and originalIndex
unchanged (only x and z may move); and when the perturbed candidate still
fails geometry validation, the input is returned completely unchanged. -/
theorem c10_perturbation_frame (dir : ℕ → ℕ → ℚ × ℚ) (points : List VPoint)
    (boundingBox : BoundingBox) :
    ((ensureNonDegeneratePoints dir points boundingBox).length = points.length ∧
     List.Forall₂ (fun a b => b.y = a.y ∧ b.originalIndex = a.originalIndex)
       points (ensureNonDegeneratePoints dir points boundingBox)) ∧
    (validatePointSetGeometry (perturbCandidate dir points boundingBox)
        (bboxOfPoints (perturbCandidate dir points boundingBox)) ≠ .valid →
      ensureNonDegeneratePoints dir points boundingBox = points) := by
  have hrefl : List.Forall₂ (fun (a : VPoint) (b : VPoint) =>
      b.y = a.y ∧ b.originalIndex = a.originalIndex) points points :=
    List.forall₂_same.mpr (fun p _ => ⟨rfl, rfl⟩)
  unfold ensureNonDegeneratePoints
  split_ifs with h1 h2
  · exact ⟨⟨rfl, hrefl⟩, fun _ => rfl⟩
  · exact ⟨⟨rfl, hrefl⟩, fun _ => rfl⟩
  · dsimp only
    split
    · rename_i hval
      refine ⟨⟨?_, perturbCandidate_forall2 dir points boundingBox⟩, ?_⟩
      · exact (List.Forall₂.length_eq
          (perturbCandidate_forall2 dir points boundingBox)).symm
      · intro hcontr
        exact absurd hval hcontr
    · exact ⟨⟨rfl, hrefl⟩, fun _ => rfl⟩

/-- The concrete input of the C10 witness: the tiny right triangle, whose
perturbation candidate is the unchanged input (no bucket collisions) and
still fails validation (area below 1e-6). -/
def c10Points : List VPoint :=
  [⟨0, 0, 0, 0⟩, ⟨1/8192, 0, 1, 0⟩, ⟨0, 1/8192, 2, 0⟩]

/-- The bounding box of the C10 witness points. -/
def c10Box : BoundingBox := ⟨0, 1/8192, 0, 1/8192, 1/8192, 1/8192⟩

/-- Witness for C10: at the tiny triangle the perturbed candidate fails
geometry validation, and the pass returns the input unchanged. -/
theorem c10_witness :
    validatePointSetGeometry (perturbCandidate c1Dir c10Points c10Box)
      (bboxOfPoints (perturbCandidate c1Dir c10Points c10Box)) ≠ .valid ∧
    ensureNonDegeneratePoints c1Dir c10Points c10Box = c10Points := by
  have hinv : validatePointSetGeometry (perturbCandidate c1Dir c10Points c10Box)
      (bboxOfPoints (perturbCandidate c1Dir c10Points c10Box)) ≠ .valid := by
    norm_num [c10Points, c10Box, c1Dir, perturbCandidate, perturbPoint, perturbGo,
      hashPoint, pointTolerance, bboxOfPoints, validatePointSetGeometry,
      minBoundingBoxArea, minPointSpreadRatioQ, countUniqueKeys, List.enum,
      List.enumFrom, abs]
    decide
  exact ⟨hinv, (c10_perturbation_frame c1Dir c10Points c10Box).2 hinv⟩

/-!  Claim C4: the progressive retry discipline. -/

/-- The attempt indices of the resample events of a trace, in order. -/
def resampleIdxs (trace : List PipelineEvent) : List ℕ :=
  trace.filterMap (fun e => match e with
    | .resample _ k => some k
    | _ => none)

/-- The number of triangulation attempts recorded in a trace. -/
def triCount (trace : List PipelineEvent) : ℕ :=
  (trace.filter (fun e => match e with
    | .triangulate _ => true
    | _ => false)).length

/-- Every resample event of the trace drew from the point set orig. -/
def resampleSrcOK (orig : List VPoint) (trace : List PipelineEvent) : Prop :=
  ∀ e ∈ trace, ∀ src k, e = PipelineEvent.resample src k → src = orig

lemma resampleIdxs_append (t1 t2 : List PipelineEvent) :
    resampleIdxs (t1 ++ t2) = resampleIdxs t1 ++ resampleIdxs t2 :=
  List.filterMap_append t1 t2 _

lemma triCount_append (t1 t2 : List PipelineEvent) :
    triCount (t1 ++ t2) = triCount t1 + triCount t2 := by
  unfold triCount
  rw [List.filter_append, List.length_append]

lemma resampleSrcOK_append {orig : List VPoint} {t1 t2 : List PipelineEvent} :
    resampleSrcOK orig t1 → resampleSrcOK orig t2 →
      resampleSrcOK orig (t1 ++ t2) := by
  intro h1 h2 e he src k hek
  rcases List.mem_append.mp he with he | he
  · exact h1 e he src k hek
  · exact h2 e he src k hek

/-- Loop state at which the trace bookkeeping invariant holds mid loop. -/
def TracePre (orig : List VPoint) (st : LoopState) : Prop :=
  resampleIdxs st.trace = List.range (min st.attemptCount progressiveRatios.length) ∧
  triCount st.trace ≤ min st.attemptCount 6 ∧
  resampleSrcOK orig st.trace

/-- Loop state at which the trace bookkeeping conclusion holds at exit. -/
def TracePost (orig : List VPoint) (st : LoopState) : Prop :=
  resampleIdxs st.trace = List.range (min st.attemptCount progressiveRatios.length) ∧
  triCount st.trace ≤ 6 ∧
  resampleSrcOK orig st.trace

lemma advanceAttempt_spec2 (orig : List VPoint) (boundingBox : BoundingBox)
    (st : LoopState) :
    (advanceAttempt orig boundingBox st).1.attemptCount = st.attemptCount + 1 ∧
    ((st.attemptCount + 1 ≤ progressiveRatios.length ∧
      (advanceAttempt orig boundingBox st).1.trace =
        st.trace ++ [.resample orig st.attemptCount]) ∨
     (¬ st.attemptCount + 1 ≤ progressiveRatios.length ∧
      (advanceAttempt orig boundingBox st).1.trace = st.trace)) ∧
    ((advanceAttempt orig boundingBox st).2 = true →
      st.attemptCount + 1 ≤ progressiveRatios.length) := by
  unfold advanceAttempt
  by_cases h0 : st.attemptCount = 0
  · rw [if_pos h0]
    dsimp only
    by_cases h1 : st.attemptCount + 1 ≤ progressiveRatios.length
    · rw [if_pos h1]
      rcases hp : downsamplePointsProgressive orig boundingBox progressiveRatios
          (st.attemptCount + 1 - 1) with _ | d
      · dsimp only
        exact ⟨rfl, Or.inl ⟨h1, rfl⟩, fun _ => h1⟩
      · dsimp only
        exact ⟨rfl, Or.inl ⟨h1, rfl⟩, fun _ => h1⟩
    · rw [if_neg h1]
      exact ⟨rfl, Or.inr ⟨h1, rfl⟩, by simp⟩
  · rw [if_neg h0]
    dsimp only
    by_cases h1 : st.attemptCount + 1 ≤ progressiveRatios.length
    · rw [if_pos h1]
      rcases hp : downsamplePointsProgressive orig boundingBox progressiveRatios
          (st.attemptCount + 1 - 1) with _ | d
      · dsimp only
        exact ⟨rfl, Or.inl ⟨h1, rfl⟩, fun _ => h1⟩
      · dsimp only
        exact ⟨rfl, Or.inl ⟨h1, rfl⟩, fun _ => h1⟩
    · rw [if_neg h1]
      exact ⟨rfl, Or.inr ⟨h1, rfl⟩, by simp⟩

lemma attemptOnce_spec2 (oracle : DelaunayOracle) (orig : List VPoint)
    (boundingBox : BoundingBox) (st : LoopState) :
    ((attemptOnce oracle orig boundingBox st).1.attemptCount = st.attemptCount ∧
     (attemptOnce oracle orig boundingBox st).1.trace =
       st.trace ++ [.triangulate st.current] ∧
     (attemptOnce oracle orig boundingBox st).2 = false) ∨
    ((attemptOnce oracle orig boundingBox st).1.attemptCount = st.attemptCount + 1 ∧
     ((st.attemptCount + 1 ≤ progressiveRatios.length ∧
       (attemptOnce oracle orig boundingBox st).1.trace =
         st.trace ++ [.triangulate st.current, .resample orig st.attemptCount]) ∨
      (¬ st.attemptCount + 1 ≤ progressiveRatios.length ∧
       (attemptOnce oracle orig boundingBox st).1.trace =
         st.trace ++ [.triangulate st.current])) ∧
     ((attemptOnce oracle orig boundingBox st).2 = true →
       st.attemptCount + 1 ≤ progressiveRatios.length)) := by
  rcases ho : oracle (normalizeCoordinates st.current
      (computeCoordinateRange st.current)).coords with _ | d
  · have hA : attemptOnce oracle orig boundingBox st =
        advanceAttempt orig boundingBox
          { st with
            trace := st.trace ++ [PipelineEvent.triangulate st.current],
            result := some (.error .delaunayThrew st.current.length) } := by
      simp only [attemptOnce, ho]
    rw [hA]
    obtain ⟨hac, htr, hcont⟩ := advanceAttempt_spec2 orig boundingBox
      { st with
        trace := st.trace ++ [PipelineEvent.triangulate st.current],
        result := some (.error .delaunayThrew st.current.length) }
    right
    refine ⟨hac, ?_, hcont⟩
    rcases htr with ⟨hle, htr⟩ | ⟨hgt, htr⟩
    · exact Or.inl ⟨hle, by rw [htr]; simp⟩
    · exact Or.inr ⟨hgt, htr⟩
  · rcases hv : validateDelaunatorResult d st.current.length with
      ⟨t0, pc0⟩ | ⟨pc0, r0⟩ | ⟨m0, pc0⟩
    · have hA : attemptOnce oracle orig boundingBox st =
          ({ st with
             trace := st.trace ++ [PipelineEvent.triangulate st.current],
             result := some (.success t0 pc0) }, false) := by
        simp only [attemptOnce, ho, hv]
      rw [hA]
      exact Or.inl ⟨rfl, rfl, rfl⟩
    · have hA : attemptOnce oracle orig boundingBox st =
          advanceAttempt orig boundingBox
            { st with
              trace := st.trace ++ [PipelineEvent.triangulate st.current],
              result := some (.empty pc0 r0) } := by
        simp only [attemptOnce, ho, hv]
      rw [hA]
      obtain ⟨hac, htr, hcont⟩ := advanceAttempt_spec2 orig boundingBox
        { st with
          trace := st.trace ++ [PipelineEvent.triangulate st.current],
          result := some (.empty pc0 r0) }
      right
      refine ⟨hac, ?_, hcont⟩
      rcases htr with ⟨hle, htr⟩ | ⟨hgt, htr⟩
      · exact Or.inl ⟨hle, by rw [htr]; simp⟩
      · exact Or.inr ⟨hgt, htr⟩
    · have hA : attemptOnce oracle orig boundingBox st =
          advanceAttempt orig boundingBox
            { st with
              trace := st.trace ++ [PipelineEvent.triangulate st.current],
              result := some (.error m0 pc0) } := by
        simp only [attemptOnce, ho, hv]
      rw [hA]
      obtain ⟨hac, htr, hcont⟩ := advanceAttempt_spec2 orig boundingBox
        { st with
          trace := st.trace ++ [PipelineEvent.triangulate st.current],
          result := some (.error m0 pc0) }
      right
      refine ⟨hac, ?_, hcont⟩
      rcases htr with ⟨hle, htr⟩ | ⟨hgt, htr⟩
      · exact Or.inl ⟨hle, by rw [htr]; simp⟩
      · exact Or.inr ⟨hgt, htr⟩

lemma tracePre_step_attempt (oracle : DelaunayOracle) (dir : ℕ → ℕ → ℚ × ℚ)
    (orig : List VPoint) (boundingBox : BoundingBox) (n : ℕ)
    (ih : ∀ st2 : LoopState, TracePre orig st2 →
      TracePost orig (triLoop oracle dir orig boundingBox n st2))
    (X : LoopState) (hX : TracePre orig X)
    (hXle : X.attemptCount ≤ progressiveRatios.length) :
    TracePost orig
      (if (attemptOnce oracle orig boundingBox X).2 = true then
        triLoop oracle dir orig boundingBox n (attemptOnce oracle orig boundingBox X).1
      else (attemptOnce oracle orig boundingBox X).1) := by
  obtain ⟨hidx, hcnt, hsrc⟩ := hX
  have hsrcTri : resampleSrcOK orig (X.trace ++ [PipelineEvent.triangulate X.current]) := by
    apply resampleSrcOK_append hsrc
    intro e he src k hek
    simp only [List.mem_singleton] at he
    subst he
    cases hek
  rcases attemptOnce_spec2 oracle orig boundingBox X with
    ⟨hac, htr, hcf⟩ | ⟨hac, htrOr, hcont⟩
  · rw [if_neg (by rw [hcf]; simp)]
    refine ⟨?_, ?_, ?_⟩
    · rw [htr, hac, resampleIdxs_append]
      simpa [resampleIdxs] using hidx
    · rw [htr, triCount_append]
      have h1 : triCount [PipelineEvent.triangulate X.current] = 1 := by
        simp [triCount]
      have hlen5 : progressiveRatios.length = 5 := rfl
      omega
    · rw [htr]
      exact hsrcTri
  · have hstep : TracePre orig (attemptOnce oracle orig boundingBox X).1 := by
      refine ⟨?_, ?_, ?_⟩
      · rcases htrOr with ⟨hle, htr⟩ | ⟨hgt, htr⟩
        · rw [htr, hac, resampleIdxs_append]
          have h5 : X.attemptCount ≤ progressiveRatios.length - 1 := by
            simp only [progressiveRatios, List.length_cons, List.length_nil] at hle ⊢
            omega
          rw [hidx]
          have hmin1 : min X.attemptCount progressiveRatios.length = X.attemptCount := by
            omega
          have hmin2 : min (X.attemptCount + 1) progressiveRatios.length =
              X.attemptCount + 1 := by omega
          rw [hmin1, hmin2]
          simp [resampleIdxs, List.range_succ]
        · rw [htr, hac, resampleIdxs_append]
          have h5 : X.attemptCount = progressiveRatios.length := by omega
          rw [hidx]
          have hmin1 : min X.attemptCount progressiveRatios.length =
              progressiveRatios.length := by omega
          have hmin2 : min (X.attemptCount + 1) progressiveRatios.length =
              progressiveRatios.length := by omega
          rw [hmin1, hmin2]
          simp [resampleIdxs]
      · have h1 : triCount [PipelineEvent.triangulate X.current] = 1 := by
          simp [triCount]
        have h2 : triCount [PipelineEvent.triangulate X.current,
            PipelineEvent.resample orig X.attemptCount] = 1 := by
          simp [triCount]
        have hlen5 : progressiveRatios.length = 5 := rfl
        rcases htrOr with ⟨hle, htr⟩ | ⟨hgt, htr⟩
        · rw [htr, hac, triCount_append]
          omega
        · rw [htr, hac, triCount_append]
          omega
      · rcases htrOr with ⟨hle, htr⟩ | ⟨hgt, htr⟩
        · rw [htr]
          apply resampleSrcOK_append hsrc
          intro e he src k hek
          simp only [List.mem_cons, List.mem_singleton, List.not_mem_nil, or_false] at he
          rcases he with rfl | rfl
          · cases hek
          · cases hek
            rfl
        · rw [htr]
          exact hsrcTri
    split_ifs with hcont2
    · exact ih _ hstep
    · obtain ⟨hi2, hc2, hs2⟩ := hstep
      exact ⟨hi2, le_trans hc2 (min_le_right _ _), hs2⟩

lemma triLoop_trace_inv (oracle : DelaunayOracle) (dir : ℕ → ℕ → ℚ × ℚ)
    (orig : List VPoint) (boundingBox : BoundingBox) :
    ∀ (fuel : ℕ) (st : LoopState), TracePre orig st →
      TracePost orig (triLoop oracle dir orig boundingBox fuel st) := by
  intro fuel
  induction fuel with
  | zero =>
    intro st hst
    obtain ⟨hidx, hcnt, hsrc⟩ := hst
    rw [triLoop]
    exact ⟨hidx, le_trans hcnt (min_le_right _ _), hsrc⟩
  | succ n ih =>
    intro st hst
    rw [triLoop]
    dsimp only
    split
    · obtain ⟨hidx, hcnt, hsrc⟩ := hst
      exact ⟨hidx, le_trans hcnt (min_le_right _ _), hsrc⟩
    · rename_i hguard
      have hle : st.attemptCount ≤ progressiveRatios.length := by omega
      obtain ⟨hidx, hcnt, hsrc⟩ := hst
      split
      · split
        · rename_i hinv1 cur1 st1 hinv2 hzero
          have hidx2 : resampleIdxs (st.trace ++ [PipelineEvent.resample orig 0]) =
              List.range (min 1 progressiveRatios.length) := by
            rw [resampleIdxs_append, hidx, hzero]
            norm_num [resampleIdxs, progressiveRatios]
            simp [List.filterMap_cons, List.range_succ]
          have hcnt2 : triCount (st.trace ++ [PipelineEvent.resample orig 0]) ≤
              min 1 6 := by
            rw [triCount_append]
            have h0 : triCount [PipelineEvent.resample orig 0] = 0 := by
              simp [triCount]
            omega
          have hsrc2 : resampleSrcOK orig
              (st.trace ++ [PipelineEvent.resample orig 0]) := by
            apply resampleSrcOK_append hsrc
            intro e he src k hek
            simp only [List.mem_singleton] at he
            subst he
            cases hek
            rfl
          split
          · exact ih _ ⟨hidx2, hcnt2, hsrc2⟩
          · exact tracePre_step_attempt oracle dir orig boundingBox n ih _
              ⟨hidx2, hcnt2, hsrc2⟩ (by norm_num [progressiveRatios])
        · exact tracePre_step_attempt oracle dir orig boundingBox n ih _
            ⟨hidx, hcnt, hsrc⟩ hle
      · exact tracePre_step_attempt oracle dir orig boundingBox n ih _
          ⟨hidx, hcnt, hsrc⟩ hle

lemma runCapped_trace (oracle : DelaunayOracle) (dir : ℕ → ℕ → ℚ × ℚ)
    (bn : List ℚ → List ℕ → List ℚ) (vpoints : List VPoint)
    (boundingBox : BoundingBox) (st : LoopState)
    (h1 : st.trace = []) (h2 : st.attemptCount = 0) :
    TracePost vpoints
      (runConditioned.runCapped oracle dir bn vpoints boundingBox st).2 := by
  have hPre : ∀ st2 : LoopState, st2.trace = st.trace →
      st2.attemptCount = st.attemptCount → TracePre vpoints st2 := by
    intro st2 ha hb
    refine ⟨?_, ?_, ?_⟩
    · rw [ha, h1, hb, h2]
      simp [resampleIdxs]
    · rw [ha, h1, hb, h2]
      simp [triCount]
    · rw [ha, h1]
      intro e he
      simp at he
  unfold runConditioned.runCapped
  dsimp only
  split
  · dsimp only
    apply triLoop_trace_inv
    split_ifs
    · exact hPre _ rfl rfl
    · exact hPre _ rfl rfl
  · split
    · dsimp only
      apply triLoop_trace_inv
      split_ifs
      · exact hPre _ rfl rfl
      · exact hPre _ rfl rfl
    · dsimp only
      apply triLoop_trace_inv
      split_ifs
      · exact hPre _ rfl rfl
      · exact hPre _ rfl rfl

/-- C4: every progressive resampling during the retry loop draws from the
original validated point set (never from the current downsampled or failed
set), the attempt indices into the ratio list are used consecutively from
zero in order, the ratio list is [0.5, 0.25, 0.1, 0.05, 0.01], and at most
six triangulation attempts are made before the fallback. -/
theorem c4_progressive_resampling (oracle : DelaunayOracle)
    (dir : ℕ → ℕ → ℚ × ℚ) (bn : List ℚ → List ℕ → List ℚ)
    (input : List (ℚ × ℚ × ℚ)) :
    resampleSrcOK (conditionedPoints input) (pipelineTrace oracle dir bn input) ∧
    resampleIdxs (pipelineTrace oracle dir bn input) =
      List.range (resampleIdxs (pipelineTrace oracle dir bn input)).length ∧
    triCount (pipelineTrace oracle dir bn input) ≤ 6 ∧
    progressiveRatios = [1/2, 1/4, 1/10, 1/20, 1/100] := by
  have hempty : ∀ (orig : List VPoint), resampleSrcOK orig [] ∧
      resampleIdxs ([] : List PipelineEvent) =
        List.range (resampleIdxs ([] : List PipelineEvent)).length ∧
      triCount ([] : List PipelineEvent) ≤ 6 := by
    intro orig
    refine ⟨?_, by simp [resampleIdxs], by simp [triCount]⟩
    intro e he
    simp at he
  have hconv : ∀ (orig : List VPoint) (stF : LoopState), TracePost orig stF →
      resampleSrcOK orig stF.trace ∧
      resampleIdxs stF.trace = List.range (resampleIdxs stF.trace).length ∧
      triCount stF.trace ≤ 6 := by
    rintro orig stF ⟨hidx, hcnt, hsrc⟩
    refine ⟨hsrc, ?_, hcnt⟩
    rw [hidx, List.length_range]
  unfold pipelineTrace runPipeline
  dsimp only
  split_ifs with h1 h2 h3
  · exact ⟨(hempty (conditionedPoints input)).1, (hempty (conditionedPoints input)).2.1,
      (hempty (conditionedPoints input)).2.2, rfl⟩
  · exact ⟨(hempty (conditionedPoints input)).1, (hempty (conditionedPoints input)).2.1,
      (hempty (conditionedPoints input)).2.2, rfl⟩
  · exact ⟨(hempty (conditionedPoints input)).1, (hempty (conditionedPoints input)).2.1,
      (hempty (conditionedPoints input)).2.2, rfl⟩
  · unfold runConditioned
    dsimp only
    split
    · split
      · exact ⟨(hempty (conditionedPoints input)).1, (hempty (conditionedPoints input)).2.1,
          (hempty (conditionedPoints input)).2.2, rfl⟩
      · have hpost := runCapped_trace oracle dir bn (conditionedPoints input)
          (validateAndDeduplicatePoints input).boundingBox
          { current := ensureNonDegeneratePoints dir (conditionedPoints input)
              (validateAndDeduplicatePoints input).boundingBox,
            strategy := .noneStrat (conditionedPoints input).length,
            attempted := [], attemptCount := 0, trace := [], result := none }
          rfl rfl
        obtain ⟨ha, hb, hc⟩ := hconv _ _ hpost
        exact ⟨ha, hb, hc, rfl⟩
    · have hpost := runCapped_trace oracle dir bn (conditionedPoints input)
        (validateAndDeduplicatePoints input).boundingBox
        { current := conditionedPoints input,
          strategy := .noneStrat (conditionedPoints input).length,
          attempted := [], attemptCount := 0, trace := [], result := none }
        rfl rfl
      obtain ⟨ha, hb, hc⟩ := hconv _ _ hpost
      exact ⟨ha, hb, hc, rfl⟩

/-!  Claim C6: grid downsampling count bounds. -/

/-- Total number of points filed in a grid map. -/
def cellsSize (m : List ((ℤ × ℤ) × List VPoint)) : ℕ :=
  (m.map (fun c => c.2.length)).sum

lemma insertIntoCell_size (m : List ((ℤ × ℤ) × List VPoint)) (key : ℤ × ℤ)
    (p : VPoint) : cellsSize (insertIntoCell m key p) = cellsSize m + 1 := by
  induction m with
  | nil => simp [insertIntoCell, cellsSize]
  | cons c rest ih =>
    obtain ⟨k, ps⟩ := c
    rw [insertIntoCell]
    split_ifs with hk
    · simp [cellsSize]
      omega
    · simp only [cellsSize, List.map_cons, List.sum_cons] at ih ⊢
      omega

lemma insertIntoCell_length_ge (m : List ((ℤ × ℤ) × List VPoint)) (key : ℤ × ℤ)
    (p : VPoint) : m.length ≤ (insertIntoCell m key p).length := by
  induction m with
  | nil => simp [insertIntoCell]
  | cons c rest ih =>
    obtain ⟨k, ps⟩ := c
    rw [insertIntoCell]
    split_ifs with hk
    · simp
    · simp only [List.length_cons]
      omega

lemma insertIntoCell_cells_ne (m : List ((ℤ × ℤ) × List VPoint)) (key : ℤ × ℤ)
    (p : VPoint) (hm : ∀ c ∈ m, c.2 ≠ []) :
    ∀ c ∈ insertIntoCell m key p, c.2 ≠ [] := by
  induction m with
  | nil =>
    intro c hc
    simp only [insertIntoCell, List.mem_singleton] at hc
    subst hc
    simp
  | cons c0 rest ih =>
    obtain ⟨k, ps⟩ := c0
    intro c hc
    rw [insertIntoCell] at hc
    split_ifs at hc with hk
    · rcases List.mem_cons.mp hc with hceq | hc2
      · subst hceq
        have := hm (k, ps) (by simp)
        simp only [ne_eq] at this ⊢
        simp [this]
      · exact hm c (List.mem_cons_of_mem _ hc2)
    · rcases List.mem_cons.mp hc with hceq | hc2
      · subst hceq
        exact hm (k, ps) (by simp)
      · exact ih (fun c2 hc2b => hm c2 (List.mem_cons_of_mem _ hc2b)) c hc2

lemma buildGridMap_facts (points : List VPoint) (boundingBox : BoundingBox)
    (cw ch : ℚ) :
    cellsSize (buildGridMap points boundingBox cw ch) = points.length ∧
    (∀ c ∈ buildGridMap points boundingBox cw ch, c.2 ≠ []) ∧
    (points ≠ [] → buildGridMap points boundingBox cw ch ≠ []) := by
  unfold buildGridMap
  suffices h :
      ∀ (m : List ((ℤ × ℤ) × List VPoint)), (∀ c ∈ m, c.2 ≠ []) →
        cellsSize (points.foldl (fun m point =>
          insertIntoCell m (⌊(point.x - boundingBox.minX) / cw⌋,
            ⌊(point.z - boundingBox.minZ) / ch⌋) point) m) =
          cellsSize m + points.length ∧
        (∀ c ∈ points.foldl (fun m point =>
          insertIntoCell m (⌊(point.x - boundingBox.minX) / cw⌋,
            ⌊(point.z - boundingBox.minZ) / ch⌋) point) m, c.2 ≠ []) ∧
        m.length ≤ (points.foldl (fun m point =>
          insertIntoCell m (⌊(point.x - boundingBox.minX) / cw⌋,
            ⌊(point.z - boundingBox.minZ) / ch⌋) point) m).length by
    obtain ⟨h1, h2, h3⟩ := h [] (by simp)
    refine ⟨by simpa [cellsSize] using h1, h2, ?_⟩
    intro hne hcontr
    rw [hcontr] at h1
    simp only [cellsSize, List.map_nil, List.sum_nil, Nat.zero_eq, List.length_nil] at h1
    have : points.length = 0 := by omega
    exact hne (List.length_eq_zero.mp this)
  intro m
  induction points generalizing m with
  | nil => intro hm; exact ⟨by simp, hm, le_refl _⟩
  | cons p rest ih =>
    intro hm
    rw [List.foldl_cons]
    obtain ⟨ih1, ih2, ih3⟩ := ih (insertIntoCell m
      (⌊(p.x - boundingBox.minX) / cw⌋, ⌊(p.z - boundingBox.minZ) / ch⌋) p)
      (insertIntoCell_cells_ne m _ p hm)
    refine ⟨?_, ih2, ?_⟩
    · rw [ih1, insertIntoCell_size]
      simp only [List.length_cons]
      omega
    · exact le_trans (insertIntoCell_length_ge m _ p) ih3

lemma cells_length_le_size (m : List ((ℤ × ℤ) × List VPoint))
    (hm : ∀ c ∈ m, c.2 ≠ []) : m.length ≤ cellsSize m := by
  induction m with
  | nil => simp [cellsSize]
  | cons c rest ih =>
    have hc := hm c (by simp)
    have h1 : 1 ≤ c.2.length := by
      rcases hc2 : c.2 with _ | ⟨a, b⟩
      · exact absurd hc2 hc
      · simp
    have h2 := ih (fun c2 hc2 => hm c2 (List.mem_cons_of_mem _ hc2))
    simp only [cellsSize, List.map_cons, List.sum_cons, List.length_cons] at h2 ⊢
    omega

lemma mainStep_len (acc : List VPoint × List ℤ × List (ℤ × ℤ))
    (cell : (ℤ × ℤ) × List VPoint) :
    acc.1.length ≤ (mainStep acc cell).1.length ∧
    (mainStep acc cell).1.length ≤ acc.1.length + 1 := by
  unfold mainStep
  split
  · omega
  · dsimp only
    split_ifs
    · omega
    · simp

lemma mainFold_len (cells : List ((ℤ × ℤ) × List VPoint)) :
    ∀ acc, acc.1.length ≤ (cells.foldl mainStep acc).1.length ∧
      (cells.foldl mainStep acc).1.length ≤ acc.1.length + cells.length := by
  induction cells with
  | nil => intro acc; simp
  | cons c rest ih =>
    intro acc
    rw [List.foldl_cons]
    obtain ⟨ih1, ih2⟩ := ih (mainStep acc c)
    obtain ⟨hs1, hs2⟩ := mainStep_len acc c
    simp only [List.length_cons]
    omega

lemma mainStep_first (acc : List VPoint × List ℤ × List (ℤ × ℤ))
    (cell : (ℤ × ℤ) × List VPoint) (hne : cell.2 ≠ []) (hused : acc.2.2 = []) :
    1 ≤ (mainStep acc cell).1.length := by
  unfold mainStep
  rcases hc : cell.2 with _ | ⟨c0, rest⟩
  · exact absurd hc hne
  · dsimp only
    rw [if_neg (by simp [hused])]
    simp

lemma mainPassGo_len (cells : List ((ℤ × ℤ) × List VPoint))
    (hne : ∀ c ∈ cells, c.2 ≠ []) :
    (cells ≠ [] → 1 ≤ (mainPassGo cells).1.length) ∧
    (mainPassGo cells).1.length ≤ cells.length := by
  unfold mainPassGo
  constructor
  · intro hc
    rcases cells with _ | ⟨c, rest⟩
    · exact absurd rfl hc
    · rw [List.foldl_cons]
      have h1 := mainStep_first ([], [], []) c (hne c (by simp)) rfl
      have h2 := (mainFold_len rest (mainStep ([], [], []) c)).1
      omega
  · have := (mainFold_len cells ([], [], [])).2
    simpa using this

lemma enhInner_len (cellPts : List VPoint)
    (acc2 : List VPoint × List ℤ × List (ℤ × ℤ)) (j : ℕ) :
    (enhInner cellPts acc2 j).1.length ≤ acc2.1.length + 1 := by
  unfold enhInner
  split
  · omega
  · dsimp only
    split_ifs
    · omega
    · simp

lemma enhInnerFold_len (cellPts : List VPoint) (idxs : List ℕ) :
    ∀ acc2, ((idxs.foldl (enhInner cellPts) acc2).1.length ≤
      acc2.1.length + idxs.length) := by
  induction idxs with
  | nil => intro acc2; simp
  | cons j rest ih =>
    intro acc2
    rw [List.foldl_cons]
    have h1 := enhInner_len cellPts acc2 j
    have h2 := ih (enhInner cellPts acc2 j)
    simp only [List.length_cons]
    omega

lemma enhStep_len (minPointsPerCell : ℕ)
    (acc : List VPoint × List ℤ × List (ℤ × ℤ)) (cell : (ℤ × ℤ) × List VPoint) :
    (enhStep minPointsPerCell acc cell).1.length ≤ acc.1.length + cell.2.length := by
  unfold enhStep
  split
  · omega
  · dsimp only
    refine le_trans (enhInnerFold_len cell.2 _ acc) (Nat.add_le_add_left ?_ _)
    exact le_trans (List.length_filter_le _ _) (le_of_eq (List.length_range _))

lemma enhancedPassGo_len (cells : List ((ℤ × ℤ) × List VPoint))
    (minPointsPerCell : ℕ) (used : List (ℤ × ℤ)) :
    (enhancedPassGo cells minPointsPerCell used).1.length ≤ cellsSize cells := by
  unfold enhancedPassGo
  suffices h : ∀ acc, ((cells.foldl (enhStep minPointsPerCell) acc).1.length ≤
      acc.1.length + cellsSize cells) by
    simpa using h ([], [], used)
  induction cells with
  | nil => intro acc; simp [cellsSize]
  | cons c rest ih =>
    intro acc
    rw [List.foldl_cons]
    have h1 := enhStep_len minPointsPerCell acc c
    have h2 := ih (enhStep minPointsPerCell acc c)
    simp only [cellsSize, List.map_cons, List.sum_cons] at h2 ⊢
    omega

/-- Counterexample to C6: grid downsampling can both exceed the requested
target without the enhanced pass (sixteen points at the nodes of a four by
four lattice, target eight: every point lands in its own cell because the
grid is sized from the aspect adjusted target, and boundary points spill
into an extra cell column, so all sixteen survive) and fall below three
(nine clustered points in a single cell plus one far corner point, target
three: only two cell representatives remain). -/
def c6Grid16 : List VPoint :=
  (List.range 4).flatMap (fun (i : ℕ) => (List.range 4).map (fun (j : ℕ) =>
    VPoint.mk (i : ℚ) (j : ℚ) (Int.ofNat (4 * i + j)) 0))

/-- Bounding box of the four by four lattice. -/
def c6Box16 : BoundingBox := ⟨0, 3, 0, 3, 3, 3⟩

/-- Nine clustered points plus one far corner point. -/
def c6Cluster10 : List VPoint :=
  ((List.range 9).map (fun (k : ℕ) => VPoint.mk ((k : ℚ) / 100) 0 (Int.ofNat k) 0)) ++
    [VPoint.mk 1 1 9 0]

/-- Bounding box of the clustered input. -/
def c6Box10 : BoundingBox := ⟨0, 1, 0, 1, 1, 1⟩

set_option maxHeartbeats 8000000 in
set_option maxRecDepth 4000 in
/-- Counterexample to C6 as stated: the main (single representative) grid
pass returns sixteen points for a target of eight, and two points (fewer
than three) for the clustered input at target three. -/
theorem c6_counterexample :
    8 < c6Grid16.length ∧
    (downsamplePoints c6Grid16 c6Box16 8).points.length = 16 ∧
    3 < c6Cluster10.length ∧
    (downsamplePoints c6Cluster10 c6Box10 3).points.length = 2 := by
  have hcs12 : ceilSqrt (Int.toNat 12) = 4 := by
    simp [ceilSqrt, Int.toNat_ofNat, Nat.sqrt, Nat.sqrt.iter]
  have hcs4 : ceilSqrt (Int.toNat 4) = 2 := by
    simp [ceilSqrt, Int.toNat_ofNat, Nat.sqrt, Nat.sqrt.iter]
  refine ⟨by norm_num [c6Grid16, List.range, List.range.loop, List.flatMap], ?_,
    by norm_num [c6Cluster10, List.range, List.range.loop], ?_⟩
  · norm_num [c6Grid16, c6Box16, downsamplePoints, hcs12, hcs4, Int.toNat_ofNat,
      buildGridMap, insertIntoCell, mainPassGo, mainStep, hashPoint, pointTolerance,
      validatePointSetGeometry, countUniqueKeys, minBoundingBoxArea,
      minPointSpreadRatioQ, List.range, List.range.loop, List.flatMap, List.getD,
      List.get?, abs, -Prod.mk_zero_zero, -Prod.mk_one_one]
  · norm_num [c6Cluster10, c6Box10, downsamplePoints, hcs12, hcs4, Int.toNat_ofNat,
      buildGridMap, insertIntoCell, mainPassGo, mainStep, hashPoint,
      pointTolerance, validatePointSetGeometry, countUniqueKeys, minBoundingBoxArea,
      minPointSpreadRatioQ, List.range, List.range.loop, List.flatMap, List.getD,
      List.get?, abs, -Prod.mk_zero_zero, -Prod.mk_one_one]

/-- C6 (amended): on a nonempty input, grid downsampling returns at least
one and at most the input number of points; the claimed bounds (at least
three, and at most the requested target outside the enhanced pass) do not
hold in general. -/
theorem c6_downsample_count_bounds (points : List VPoint)
    (boundingBox : BoundingBox) (targetCount : ℕ) (h : points ≠ []) :
    1 ≤ (downsamplePoints points boundingBox targetCount).points.length ∧
    (downsamplePoints points boundingBox targetCount).points.length ≤
      points.length := by
  have hne1 : 1 ≤ points.length := by
    rcases points with _ | ⟨p, rest⟩
    · exact absurd rfl h
    · simp
  have hfacts := buildGridMap_facts points boundingBox
  unfold downsamplePoints
  split_ifs with h1
  · exact ⟨hne1, le_refl _⟩
  all_goals try dsimp only
  all_goals split
  all_goals try dsimp only
  all_goals try split_ifs
  all_goals try dsimp only
  all_goals constructor
  all_goals first
    | exact ((mainPassGo_len _ ((hfacts _ _).2.1)).1 ((hfacts _ _).2.2 h))
    | (calc (mainPassGo _).1.length
          ≤ _ := (mainPassGo_len _ ((hfacts _ _).2.1)).2
        _ ≤ cellsSize _ := cells_length_le_size _ ((hfacts _ _).2.1)
        _ = points.length := (hfacts _ _).1)
    | omega
    | (calc (enhancedPassGo _ _ _).1.length
          ≤ cellsSize _ := enhancedPassGo_len _ _ _
        _ = points.length := (hfacts _ _).1)

/-- Witness for the amended C6 at the clustered ten point input and target
three. -/
theorem c6_witness :
    1 ≤ (downsamplePoints c6Cluster10 c6Box10 3).points.length ∧
    (downsamplePoints c6Cluster10 c6Box10 3).points.length ≤
      c6Cluster10.length :=
  c6_downsample_count_bounds c6Cluster10 c6Box10 3
    (by norm_num [c6Cluster10, List.range, List.range.loop]
        exact List.cons_ne_nil _ _)

/-- The C7 reading of the collinearity check, written from the stated
property rather than the code: the same exact shared coordinate test, then
the approximate test comparing twice the triangle area (the raw cross
product magnitude) against the unsquared tolerance maxSpread times 1e-3,
with the ninety percent threshold taken over the number of sampled triples
and no lower gate on the tolerance. -/
def checkCollinearityClaim (points : List VPoint) : Bool :=
  match points with
  | [] => false
  | firstPoint :: _ =>
    if points.length < 3 then false
    else
      let allSameX := points.all (fun p => |p.x - firstPoint.x| ≤ pointTolerance)
      let allSameZ := points.all (fun p => |p.z - firstPoint.z| ≤ pointTolerance)
      if allSameX || allSameZ then true
      else
        let coordRange := computeCoordinateRange points
        let maxSpread := max coordRange.spreadX coordRange.spreadZ
        let tolerance := maxSpread * nearCollinearTolerance
        let triples := consecutiveTriples points
        let nearCollinearCount := triples.countP (fun t =>
          let dx1 := t.2.1.x - t.1.x
          let dz1 := t.2.1.z - t.1.z
          let dx2 := t.2.2.x - t.2.1.x
          let dz2 := t.2.2.z - t.2.1.z
          let crossProduct := dx1 * dz2 - dz1 * dx2
          decide (|crossProduct| < tolerance))
        decide ((nearCollinearCount : ℚ) ≥ (triples.length : ℚ) * (9 / 10))

/-- Three exactly collinear points on the line z = x / 1000, none sharing
an x or z coordinate within the point tolerance. -/
def c7Points : List VPoint :=
  [⟨0, 0, 0, 0⟩, ⟨1, 1/1000, 1, 0⟩, ⟨2, 1/500, 2, 0⟩]

/-- Counterexample to C7: on three exactly collinear points the stated
characterization declares the set collinear (its only sampled triple has
zero area, one hundred percent of the triples), but the code returns
false, because it counts near collinear triples against ninety percent of
the POINT count (2.7 here), which the at most n minus 2 triples can never
reach for fewer than twenty points. -/
theorem c7_counterexample :
    3 ≤ c7Points.length ∧
    checkCollinearityClaim c7Points = true ∧
    checkCollinearity c7Points = false := by
  refine ⟨by norm_num [c7Points], ?_, ?_⟩ <;>
    norm_num [c7Points, checkCollinearityClaim, checkCollinearity, pointTolerance,
      nearCollinearTolerance, computeCoordinateRange, consecutiveTriples,
      List.all, List.countP, List.countP.go, abs]

/-- The exact shared coordinate test of checkCollinearity, factored out:
all points share the first point's x, or all share its z, within the point
tolerance. -/
def sameCoordCheck (points : List VPoint) : Bool :=
  match points with
  | [] => false
  | firstPoint :: _ =>
    points.all (fun p => |p.x - firstPoint.x| ≤ pointTolerance) ||
    points.all (fun p => |p.z - firstPoint.z| ≤ pointTolerance)

/-- The tolerance of the approximate collinearity test: the larger
bounding box spread scaled by 1e-3. -/
def collinearTolerance (points : List VPoint) : ℚ :=
  max (computeCoordinateRange points).spreadX
    (computeCoordinateRange points).spreadZ * nearCollinearTolerance

/-- The number of sampled consecutive triples whose triangle area (half
the cross product magnitude) is below the squared tolerance. -/
def nearCollinearTripleCount (points : List VPoint) : ℕ :=
  (consecutiveTriples points).countP (fun t =>
    let dx1 := t.2.1.x - t.1.x
    let dz1 := t.2.1.z - t.1.z
    let dx2 := t.2.2.x - t.2.1.x
    let dz2 := t.2.2.z - t.2.1.z
    let crossProduct := dx1 * dz2 - dz1 * dx2
    decide (|crossProduct| / 2 < collinearTolerance points * collinearTolerance points))

/-- C7 (amended): for at least three points, the code declares collinearity
exactly when the exact shared coordinate test fires, or the tolerance
(largest spread times 1e-3) is at least the point tolerance 1e-6 AND the
number of sampled triples whose area (half the cross product) is below the
SQUARED tolerance reaches ninety percent of the POINT count (not of the
triple count). -/
theorem c7_collinearity_characterization (points : List VPoint)
    (h : 3 ≤ points.length) :
    checkCollinearity points = true ↔
      (sameCoordCheck points = true ∨
        (pointTolerance ≤ collinearTolerance points ∧
          (points.length : ℚ) * (9 / 10) ≤ (nearCollinearTripleCount points : ℚ))) := by
  rcases points with _ | ⟨p1, rest⟩
  · simp at h
  · unfold checkCollinearity
    dsimp only
    split_ifs with h1 h2 h3
    · exact absurd h (by omega)
    · simp only [true_iff]
      exact Or.inl h2
    · simp only [false_iff]
      rintro (hsame | ⟨htol, _⟩)
      · exact h2 hsame
      · exact absurd htol (not_le.mpr h3)
    · simp only [decide_eq_true_eq]
      constructor
      · intro hcnt
        exact Or.inr ⟨not_lt.mp h3, hcnt⟩
      · rintro (hsame | ⟨_, hcnt⟩)
        · exact (h2 hsame).elim
        · exact hcnt

/-- Witness for the amended C7 at three points sharing the x coordinate. -/
def c7AxisPoints : List VPoint :=
  [⟨0, 0, 0, 0⟩, ⟨0, 1, 1, 0⟩, ⟨0, 2, 2, 0⟩]

/-- Witness for the amended C7: the characterization instantiated on a
concrete vertical line of three points, on which both sides are true. -/
theorem c7_witness :
    (3 ≤ c7AxisPoints.length) ∧
    (checkCollinearity c7AxisPoints = true ↔
      (sameCoordCheck c7AxisPoints = true ∨
        (pointTolerance ≤ collinearTolerance c7AxisPoints ∧
          (c7AxisPoints.length : ℚ) * (9 / 10) ≤
            (nearCollinearTripleCount c7AxisPoints : ℚ)))) :=
  ⟨by norm_num [c7AxisPoints],
    c7_collinearity_characterization c7AxisPoints (by norm_num [c7AxisPoints])⟩

namespace ExhaustiveMesh

/-- Four coplanar points (z = 0 plane): the origin, (2,2,0), (1,0,0) and
(1,1,0), as a flat vertex buffer. -/
def c8Verts : List ℝ := [0, 0, 0, 2, 2, 0, 1, 0, 0, 1, 1, 0]

/-- The index buffer the exhaustive triangulation produces on c8Verts. -/
def c8Idx : List ℕ := [0, 1, 2, 0, 2, 3, 1, 2, 3]

lemma sqrt_eval {x r : ℝ} (hr : 0 ≤ r) (h : x = r * r) : Real.sqrt x = r := by
  rw [h]; exact Real.sqrt_mul_self hr

lemma hf012 : faceNormalRaw c8Verts 0 1 2 = ⟨0, 0, -2⟩ := by
  unfold faceNormalRaw
  norm_num [show vget c8Verts 0 = (0:ℝ) from rfl, show vget c8Verts 1 = (0:ℝ) from rfl,
    show vget c8Verts 2 = (0:ℝ) from rfl, show vget c8Verts 3 = (2:ℝ) from rfl,
    show vget c8Verts 4 = (2:ℝ) from rfl, show vget c8Verts 5 = (0:ℝ) from rfl,
    show vget c8Verts 6 = (1:ℝ) from rfl, show vget c8Verts 7 = (0:ℝ) from rfl,
    show vget c8Verts 8 = (0:ℝ) from rfl, V3.mk.injEq]

lemma hn2 : normV3 ⟨(0 : ℝ), 0, -2⟩ = 2 := by
  unfold normV3
  exact sqrt_eval (by norm_num) (by norm_num)

lemma hval012 : isValidTriangle c8Verts 0 1 2 := by
  unfold isValidTriangle
  rw [hf012, hn2]; norm_num

lemma hstep0 : ∀ acc : (ℕ → V3) × (ℕ → ℕ), accumStep c8Verts c8Idx acc 0 =
    (addV3At (addV3At (addV3At acc.1 0 ⟨0, 0, -1⟩) 1 ⟨0, 0, -1⟩) 2 ⟨0, 0, -1⟩,
      bumpAt (bumpAt (bumpAt acc.2 0) 1) 2) := by
  intro acc
  unfold accumStep
  simp only [show c8Idx.getD (0 * 3) 0 = 0 from rfl,
    show c8Idx.getD (0 * 3 + 1) 0 = 1 from rfl,
    show c8Idx.getD (0 * 3 + 2) 0 = 2 from rfl, hf012, hn2]
  norm_num [V3.mk.injEq]


lemma hf013 : faceNormalRaw c8Verts 0 1 3 = ⟨0, 0, 0⟩ := by
  unfold faceNormalRaw
  norm_num [show vget c8Verts 0 = (0:ℝ) from rfl, show vget c8Verts 1 = (0:ℝ) from rfl,
    show vget c8Verts 2 = (0:ℝ) from rfl, show vget c8Verts 3 = (2:ℝ) from rfl,
    show vget c8Verts 4 = (2:ℝ) from rfl, show vget c8Verts 5 = (0:ℝ) from rfl,
    show vget c8Verts 9 = (1:ℝ) from rfl, show vget c8Verts 10 = (1:ℝ) from rfl,
    show vget c8Verts 11 = (0:ℝ) from rfl, V3.mk.injEq]

lemma hf023 : faceNormalRaw c8Verts 0 2 3 = ⟨0, 0, 1⟩ := by
  unfold faceNormalRaw
  norm_num [show vget c8Verts 0 = (0:ℝ) from rfl, show vget c8Verts 1 = (0:ℝ) from rfl,
    show vget c8Verts 2 = (0:ℝ) from rfl, show vget c8Verts 6 = (1:ℝ) from rfl,
    show vget c8Verts 7 = (0:ℝ) from rfl, show vget c8Verts 8 = (0:ℝ) from rfl,
    show vget c8Verts 9 = (1:ℝ) from rfl, show vget c8Verts 10 = (1:ℝ) from rfl,
    show vget c8Verts 11 = (0:ℝ) from rfl, V3.mk.injEq]

lemma hf123 : faceNormalRaw c8Verts 1 2 3 = ⟨0, 0, -1⟩ := by
  unfold faceNormalRaw
  norm_num [show vget c8Verts 3 = (2:ℝ) from rfl, show vget c8Verts 4 = (2:ℝ) from rfl,
    show vget c8Verts 5 = (0:ℝ) from rfl, show vget c8Verts 6 = (1:ℝ) from rfl,
    show vget c8Verts 7 = (0:ℝ) from rfl, show vget c8Verts 8 = (0:ℝ) from rfl,
    show vget c8Verts 9 = (1:ℝ) from rfl, show vget c8Verts 10 = (1:ℝ) from rfl,
    show vget c8Verts 11 = (0:ℝ) from rfl, V3.mk.injEq]

lemma hn0 : normV3 ⟨(0 : ℝ), 0, 0⟩ = 0 := by
  unfold normV3
  exact sqrt_eval (by norm_num) (by norm_num)

lemma hn1p : normV3 ⟨(0 : ℝ), 0, 1⟩ = 1 := by
  unfold normV3
  exact sqrt_eval (by norm_num) (by norm_num)

lemma hn1m : normV3 ⟨(0 : ℝ), 0, -1⟩ = 1 := by
  unfold normV3
  exact sqrt_eval (by norm_num) (by norm_num)

lemma hval023 : isValidTriangle c8Verts 0 2 3 := by
  unfold isValidTriangle
  rw [hf023, hn1p]; norm_num

lemma hval123 : isValidTriangle c8Verts 1 2 3 := by
  unfold isValidTriangle
  rw [hf123, hn1m]; norm_num

lemma hnval013 : ¬ isValidTriangle c8Verts 0 1 3 := by
  unfold isValidTriangle
  rw [hf013, hn0]; norm_num

lemma hcv : collectValid c8Verts maxTrianglesCap (lexTriples 4) =
    [(0, 1, 2), (0, 2, 3), (1, 2, 3)] := by
  rw [show lexTriples 4 = [(0, 1, 2), (0, 1, 3), (0, 2, 3), (1, 2, 3)] from by decide]
  unfold collectValid
  rw [List.foldl_cons, if_pos ⟨by decide, hval012⟩]
  rw [List.foldl_cons, if_neg (fun hc => hnval013 hc.2)]
  rw [List.foldl_cons, if_pos ⟨by decide, hval023⟩]
  rw [List.foldl_cons, if_pos ⟨by decide, hval123⟩]
  rw [List.foldl_nil]
  rfl

lemma hstep1 : ∀ acc : (ℕ → V3) × (ℕ → ℕ), accumStep c8Verts c8Idx acc 1 =
    (addV3At (addV3At (addV3At acc.1 0 ⟨0, 0, 1⟩) 2 ⟨0, 0, 1⟩) 3 ⟨0, 0, 1⟩,
      bumpAt (bumpAt (bumpAt acc.2 0) 2) 3) := by
  intro acc
  unfold accumStep
  simp only [show c8Idx.getD (1 * 3) 0 = 0 from rfl,
    show c8Idx.getD (1 * 3 + 1) 0 = 2 from rfl,
    show c8Idx.getD (1 * 3 + 2) 0 = 3 from rfl, hf023, hn1p]
  norm_num [V3.mk.injEq]

lemma hstep2 : ∀ acc : (ℕ → V3) × (ℕ → ℕ), accumStep c8Verts c8Idx acc 2 =
    (addV3At (addV3At (addV3At acc.1 1 ⟨0, 0, -1⟩) 2 ⟨0, 0, -1⟩) 3 ⟨0, 0, -1⟩,
      bumpAt (bumpAt (bumpAt acc.2 1) 2) 3) := by
  intro acc
  unfold accumStep
  simp only [show c8Idx.getD (2 * 3) 0 = 1 from rfl,
    show c8Idx.getD (2 * 3 + 1) 0 = 2 from rfl,
    show c8Idx.getD (2 * 3 + 2) 0 = 3 from rfl, hf123, hn1m]
  norm_num [V3.mk.injEq]

lemma hauxEq : computeNormalsAux c8Verts c8Idx 3 =
    (addV3At (addV3At (addV3At (addV3At (addV3At (addV3At
        (addV3At (addV3At (addV3At (fun _ => ⟨0, 0, 0⟩) 0 ⟨0, 0, -1⟩) 1 ⟨0, 0, -1⟩)
          2 ⟨0, 0, -1⟩) 0 ⟨0, 0, 1⟩) 2 ⟨0, 0, 1⟩) 3 ⟨0, 0, 1⟩)
          1 ⟨0, 0, -1⟩) 2 ⟨0, 0, -1⟩) 3 ⟨0, 0, -1⟩,
      bumpAt (bumpAt (bumpAt (bumpAt (bumpAt (bumpAt
        (bumpAt (bumpAt (bumpAt (fun _ => 0) 0) 1) 2) 0) 2) 3) 1) 2) 3) := by
  unfold computeNormalsAux
  rw [show List.range 3 = [0, 1, 2] from rfl]
  rw [List.foldl_cons, hstep0, List.foldl_cons, hstep1, List.foldl_cons, hstep2,
    List.foldl_nil]

lemma hc0 : (computeNormalsAux c8Verts c8Idx 3).2 0 = 2 := by
  rw [hauxEq]
  norm_num [bumpAt]

lemma hs0 : (computeNormalsAux c8Verts c8Idx 3).1 0 = ⟨0, 0, 0⟩ := by
  rw [hauxEq]
  norm_num [addV3At, V3.mk.injEq]

lemma hvn0 : vertexNormal c8Verts c8Idx 3 0 = ⟨0, 0, 0⟩ := by
  unfold vertexNormal
  norm_num [hc0, hs0, hn0, V3.mk.injEq]

/-- Counterexample to C8: on four coplanar points the exhaustive
triangulation succeeds (three valid triangles, indices c8Idx), yet vertex
zero ends with the exact zero normal while TWO faces contributed to it:
its two incident face normals point in opposite directions and cancel, the
averaged vector has length zero, and the final renormalization is skipped.
So a zero per vertex normal does not imply zero contributing faces. -/
theorem c8_counterexample :
    delaunayTriangulation c8Verts 4 =
      some ⟨c8Verts, c8Idx, computeNormals c8Verts c8Idx 3, 4, 9⟩ ∧
    (computeNormalsAux c8Verts c8Idx 3).2 0 = 2 ∧
    vertexNormal c8Verts c8Idx 3 0 = ⟨0, 0, 0⟩ := by
  refine ⟨?_, hc0, hvn0⟩
  unfold delaunayTriangulation
  rw [hcv]
  norm_num [c8Idx, MeshR.mk.injEq]
  intro hcontra
  simp at hcontra


lemma bumpAt_zero (g : ℕ → ℕ) (a v : ℕ) (hz : bumpAt g a v = 0) :
    v ≠ a ∧ g v = 0 := by
  unfold bumpAt at hz
  split_ifs at hz with h
  exact ⟨h, hz⟩

lemma addV3At_ne (f : ℕ → V3) (a : ℕ) (d : V3) (v : ℕ) (h : v ≠ a) :
    addV3At f a d v = f v := by
  unfold addV3At
  exact if_neg h

lemma addBump_zero (f : ℕ → V3) (g : ℕ → ℕ) (a b c : ℕ) (nn : V3) (v : ℕ)
    (h0 : g v = 0 → f v = ⟨0, 0, 0⟩)
    (hz : bumpAt (bumpAt (bumpAt g a) b) c v = 0) :
    addV3At (addV3At (addV3At f a nn) b nn) c nn v = ⟨0, 0, 0⟩ := by
  obtain ⟨hc, hz2⟩ := bumpAt_zero _ _ _ hz
  obtain ⟨hb, hz3⟩ := bumpAt_zero _ _ _ hz2
  obtain ⟨ha, hz4⟩ := bumpAt_zero _ _ _ hz3
  rw [addV3At_ne _ _ _ _ hc, addV3At_ne _ _ _ _ hb, addV3At_ne _ _ _ _ ha]
  exact h0 hz4

lemma accumStep_zero_inv (vertices : List ℝ) (indices : List ℕ)
    (acc : (ℕ → V3) × (ℕ → ℕ)) (t v : ℕ)
    (h0 : acc.2 v = 0 → acc.1 v = ⟨0, 0, 0⟩) :
    (accumStep vertices indices acc t).2 v = 0 →
      (accumStep vertices indices acc t).1 v = ⟨0, 0, 0⟩ := by
  unfold accumStep
  dsimp only
  split_ifs with hlen
  · intro hz
    exact addBump_zero _ _ _ _ _ _ _ h0 hz
  · exact h0

lemma accumFold_zero_inv (vertices : List ℝ) (indices : List ℕ)
    (l : List ℕ) (acc : (ℕ → V3) × (ℕ → ℕ)) (v : ℕ)
    (h0 : acc.2 v = 0 → acc.1 v = ⟨0, 0, 0⟩) :
    (l.foldl (accumStep vertices indices) acc).2 v = 0 →
      (l.foldl (accumStep vertices indices) acc).1 v = ⟨0, 0, 0⟩ := by
  induction l generalizing acc with
  | nil => simpa using h0
  | cons t rest ih =>
    rw [List.foldl_cons]
    exact ih _ (accumStep_zero_inv _ _ _ _ _ h0)

lemma computeNormalsAux_zero (vertices : List ℝ) (indices : List ℕ)
    (triangleCount : ℕ) (v : ℕ)
    (hz : (computeNormalsAux vertices indices triangleCount).2 v = 0) :
    (computeNormalsAux vertices indices triangleCount).1 v = ⟨0, 0, 0⟩ := by
  unfold computeNormalsAux at hz ⊢
  exact accumFold_zero_inv _ _ _ _ _ (fun _ => rfl) hz

lemma normV3_scale (x y z k : ℝ) (hk : 0 ≤ k) :
    normV3 ⟨x * k, y * k, z * k⟩ = normV3 ⟨x, y, z⟩ * k := by
  unfold normV3
  dsimp only
  have hnn : 0 ≤ x * x + y * y + z * z := by
    nlinarith [mul_self_nonneg x, mul_self_nonneg y, mul_self_nonneg z]
  rw [show x * k * (x * k) + y * k * (y * k) + z * k * (z * k)
      = (x * x + y * y + z * z) * (k * k) from by ring]
  rw [Real.sqrt_mul hnn, Real.sqrt_mul_self hk]

/-- C8 (amended): a triangle whose face normal length is at most 1e-4
contributes nothing to the accumulator (this half of the claim holds);
every final per vertex normal has length exactly one or at most 1e-4 (not
necessarily exactly zero, and a zero normal can have contributing faces,
see the counterexample); and a vertex with zero contributing faces does
get the exact zero normal. -/
theorem c8_normal_invariants (vertices : List ℝ) (indices : List ℕ)
    (triangleCount : ℕ) (acc : (ℕ → V3) × (ℕ → ℕ)) (t v : ℕ)
    (hdeg : normV3 (faceNormalRaw vertices (indices.getD (t * 3) 0)
        (indices.getD (t * 3 + 1) 0) (indices.getD (t * 3 + 2) 0)) ≤ 1 / 10000) :
    accumStep vertices indices acc t = acc ∧
    (normV3 (vertexNormal vertices indices triangleCount v) = 1 ∨
      normV3 (vertexNormal vertices indices triangleCount v) ≤ 1 / 10000) ∧
    ((computeNormalsAux vertices indices triangleCount).2 v = 0 →
      vertexNormal vertices indices triangleCount v = ⟨0, 0, 0⟩) := by
  refine ⟨?_, ?_, ?_⟩
  · unfold accumStep
    dsimp only
    rw [if_neg (not_lt.mpr hdeg)]
  · unfold vertexNormal
    dsimp only
    split_ifs with hcnt hlen
    · left
      rw [normV3_scale _ _ _ _ (le_of_lt (one_div_pos.mpr
        (lt_trans (by norm_num : (0:ℝ) < 1 / 10000) hlen)))]
      rw [mul_one_div, div_self (ne_of_gt
        (lt_trans (by norm_num : (0:ℝ) < 1 / 10000) hlen))]
    · right
      exact not_lt.mp hlen
    · right
      have hz : (computeNormalsAux vertices indices triangleCount).2 v = 0 := by
        omega
      rw [computeNormalsAux_zero _ _ _ _ hz]
      unfold normV3
      norm_num
  · intro hz
    unfold vertexNormal
    dsimp only
    rw [if_neg (by omega :
      ¬(computeNormalsAux vertices indices triangleCount).2 v > 0)]
    exact computeNormalsAux_zero _ _ _ _ hz

def c8DegIdx : List ℕ := [0, 1, 3]

def c8AccInit : (ℕ → V3) × (ℕ → ℕ) := (fun _ => ⟨0, 0, 0⟩, fun _ => 0)

/-- Witness for the amended C8 at the degenerate triple (0, 1, 3) of the
coplanar fixture, whose face normal is the zero vector. -/
theorem c8_witness :
    normV3 (faceNormalRaw c8Verts (c8DegIdx.getD (0 * 3) 0)
        (c8DegIdx.getD (0 * 3 + 1) 0) (c8DegIdx.getD (0 * 3 + 2) 0)) ≤ 1 / 10000 ∧
    (accumStep c8Verts c8DegIdx c8AccInit 0 = c8AccInit ∧
      (normV3 (vertexNormal c8Verts c8DegIdx 1 0) = 1 ∨
        normV3 (vertexNormal c8Verts c8DegIdx 1 0) ≤ 1 / 10000) ∧
      ((computeNormalsAux c8Verts c8DegIdx 1).2 0 = 0 →
        vertexNormal c8Verts c8DegIdx 1 0 = ⟨0, 0, 0⟩)) := by
  have hdeg : normV3 (faceNormalRaw c8Verts (c8DegIdx.getD (0 * 3) 0)
      (c8DegIdx.getD (0 * 3 + 1) 0) (c8DegIdx.getD (0 * 3 + 2) 0)) ≤ 1 / 10000 := by
    rw [show c8DegIdx.getD (0 * 3) 0 = 0 from rfl,
      show c8DegIdx.getD (0 * 3 + 1) 0 = 1 from rfl,
      show c8DegIdx.getD (0 * 3 + 2) 0 = 3 from rfl, hf013, hn0]
    norm_num
  exact ⟨hdeg, c8_normal_invariants c8Verts c8DegIdx 1 c8AccInit 0 0 hdeg⟩

end ExhaustiveMesh

end SplatNav
